import Mathlib

/-!
Verification of the storage and indexing engine specification against a
shallow embedding of the source code (record layout, sequential file,
ISAM, B+ trees, extendible hashing, coordinator).

Conventions used throughout the embedding:
  - machine bytes are naturals below 256, multi-byte integers are explicit
    little-endian byte lists, as produced by struct.pack on x86;
  - Python runtime values that may populate a record field are the
    inductive PyVal below; a 32-bit float value is represented by its IEEE
    bit pattern (the source packs with struct format f, which is exact for
    values already representable in 32 bits);
  - fallible code (struct.pack range errors, raised ValueError) is
    modelled with Option / Except;
  - data files are modelled as the list of their fixed-width units
    (records, pages, nodes, buckets) in file order.
-/

namespace DBIndex

/-- A byte as stored on disk (0 to 255). -/
abbrev Byte := Nat

/-- Field kinds recognised by record.py in method make_format. -/
inductive FieldType
  | INT
  | FLOAT
  | CHAR
  | BOOL
  | ARRAY
  deriving DecidableEq, Repr

/-- One schema entry, mirroring the (name, type, size) triples of
list_of_types in record.py. -/
structure FieldSpec where
  name : String
  ftype : FieldType
  size : Nat
  deriving DecidableEq, Repr

/-- Python runtime values that can populate a record field.  Strings are
modelled by their ASCII code units (the engine only stores ASCII payloads);
a float is carried as its 32-bit IEEE bit pattern. -/
inductive PyVal
  | vint (i : Int)
  | vfloat (bits : Nat)
  | vstr (s : List Byte)
  | vbytes (b : List Byte)
  | vbool (b : Bool)
  | varr (xs : List Nat)
  | vnone
  deriving DecidableEq, Repr

/-- Little-endian 4-byte encoding of a natural number below 2 to the 32
(payload layout of struct formats i and f on x86). -/
def le4 (n : Nat) : List Byte :=
  [n % 256, n / 256 % 256, n / 65536 % 256, n / 16777216 % 256]

/-- Decode a little-endian 4-byte group back to a natural number. -/
def deLe4 (bs : List Byte) : Nat :=
  match bs with
  | [b0, b1, b2, b3] => b0 + 256 * b1 + 65536 * b2 + 16777216 * b3
  | _ => 0

/-- struct.pack with format i: a signed 32-bit little-endian integer;
out-of-range values raise, which is modelled by none. -/
def packInt32 (i : Int) : Option (List Byte) :=
  if -2147483648 ≤ i ∧ i < 2147483648 then
    some (le4 ((i % 4294967296).toNat))
  else
    none

/-- struct.unpack with format i: two midway complement decoding of a signed
little-endian 32-bit integer. -/
def decodeInt32 (bs : List Byte) : Int :=
  let u := deLe4 bs
  if u < 2147483648 then (u : Int) else (u : Int) - 4294967296

/-- ASCII code units of str(value) for the value shapes the engine passes
to a CHAR field (str, None, bool, int). -/
def pyStrBytes : PyVal → List Byte
  | .vstr s => s
  | .vnone => [78, 111, 110, 101]
  | .vbool true => [84, 114, 117, 101]
  | .vbool false => [70, 97, 108, 115, 101]
  | .vint i => (toString i).data.map Char.toNat
  | .vfloat _ => []
  | .vbytes _ => []
  | .varr _ => []

/-- Python truthiness, used by bool(value) in process_value. -/
def pyTruthy : PyVal → Bool
  | .vbool b => b
  | .vint i => decide (i ≠ 0)
  | .vstr s => decide (s ≠ [])
  | .vbytes b => decide (b ≠ [])
  | .varr xs => decide (xs ≠ [])
  | .vfloat bits => decide (bits % 2147483648 ≠ 0)
  | .vnone => false

/-- CHAR packing from process_value in record.py: a bytes value is cut to
the field width and right-padded with zero bytes; any other value is
converted with str, right-padded with spaces to the width, encoded and cut
to the width. -/
def packChar (n : Nat) (v : PyVal) : List Byte :=
  match v with
  | .vbytes b => (b.take n) ++ List.replicate (n - b.length) 0
  | _ =>
      let s := pyStrBytes v
      ((s ++ List.replicate (n - s.length) 32).take n)

/-- int(value) as used by process_value on an INT field, for the value
shapes the engine passes there. -/
def pyIntOf : PyVal → Option Int
  | .vint i => some i
  | .vbool b => some (cond b 1 0)
  | _ => none

/-- Byte width of one field inside the packed record (struct alignment
padding is not modelled; pack and unpack below share the same layout, as
the source shares one FORMAT string for both directions). -/
def fieldWidth (f : FieldSpec) : Nat :=
  match f.ftype with
  | .INT => 4
  | .FLOAT => 4
  | .CHAR => f.size
  | .BOOL => 1
  | .ARRAY => 4 * f.size

/-- Pack one field value, following process_value and struct.pack in
Record.pack; unsupported value shapes (which raise in the source) give
none. -/
def packField (f : FieldSpec) (v : PyVal) : Option (List Byte) :=
  match f.ftype with
  | .INT => (pyIntOf v).bind packInt32
  | .FLOAT =>
      match v with
      | .vfloat bits => if bits < 4294967296 then some (le4 bits) else none
      | _ => none
  | .CHAR => some (packChar f.size v)
  | .BOOL => some [cond (pyTruthy v) 1 0]
  | .ARRAY =>
      match v with
      | .varr xs =>
          if decide (xs.length = f.size) && xs.all (· < 4294967296) then
            some (xs.foldr (fun x acc => le4 x ++ acc) [])
          else
            none
      | _ => none

/-- Split a byte list into groups of four and decode each, for ARRAY
unpacking. -/
def deLe4Chunks : Nat → List Byte → List Nat
  | 0, _ => []
  | d + 1, bs => deLe4 (bs.take 4) :: deLe4Chunks d (bs.drop 4)

/-- Unpack one field from its byte group, following Record.unpack: INT
decodes signed, FLOAT keeps the bit pattern, CHAR yields the raw bytes,
BOOL is nonzero, ARRAY decodes a list. -/
def unpackField (f : FieldSpec) (bs : List Byte) : PyVal :=
  match f.ftype with
  | .INT => .vint (decodeInt32 bs)
  | .FLOAT => .vfloat (deLe4 bs)
  | .CHAR => .vbytes bs
  | .BOOL => .vbool (decide (bs.headD 0 ≠ 0))
  | .ARRAY => .varr (deLe4Chunks f.size bs)

/-- A record value assignment, positionally aligned with its schema. -/
abbrev RecordVals := List PyVal

/-- Record.pack over a whole schema; none models a raised exception. -/
def recordPack : List FieldSpec → RecordVals → Option (List Byte)
  | [], [] => some []
  | f :: fs, v :: vs => do
      let b ← packField f v
      let rest ← recordPack fs vs
      pure (b ++ rest)
  | _, _ => none

/-- Record.unpack over a whole schema, consuming fieldWidth bytes per
field.  The source unpacks buffers of exactly the record size, which is
what recordPack produces. -/
def recordUnpack : List FieldSpec → List Byte → RecordVals
  | [], _ => []
  | f :: fs, bs => unpackField f (bs.take (fieldWidth f)) :: recordUnpack fs (bs.drop (fieldWidth f))

/-- Values in the canonical on-disk shape: INT in signed 32-bit range,
FLOAT a 32-bit pattern, CHAR as bytes of exactly the field width, BOOL a
bool, ARRAY a full-width list of 32-bit patterns. -/
def canonicalVal (f : FieldSpec) (v : PyVal) : Bool :=
  match f.ftype, v with
  | .INT, .vint i => decide (-2147483648 ≤ i ∧ i < 2147483648)
  | .FLOAT, .vfloat bits => decide (bits < 4294967296)
  | .CHAR, .vbytes b => decide (b.length = f.size)
  | .BOOL, .vbool _ => true
  | .ARRAY, .varr xs => decide (xs.length = f.size) && xs.all (· < 4294967296)
  | _, _ => false

/-- A whole record in canonical shape for its schema. -/
def canonicalRec : List FieldSpec → RecordVals → Bool
  | [], [] => true
  | f :: fs, v :: vs => canonicalVal f v && canonicalRec fs vs
  | _, _ => false

/-! Sequential File primary index (sequential_file.py).  The two data
files main.dat and aux.dat are modelled as lists of packed records in
file order; get_file_size is then the list length. -/

/-- Configuration of a SequentialFile instance: the table schema, which
includes the extra active BOOL field required by its constructor, and the
key field name. -/
structure SFConfig where
  schema : List FieldSpec
  keyField : String
  deriving DecidableEq, Repr

/-- Position of a named field in a schema (attribute lookup on a Record). -/
def fieldIdx (s : List FieldSpec) (name : String) : Option Nat :=
  s.findIdx? (fun f => f.name == name)

/-- Read a named field of a record (getattr). -/
def getFieldVal (s : List FieldSpec) (vals : RecordVals) (name : String) : Option PyVal :=
  (fieldIdx s name).bind (fun i => vals.get? i)

/-- Assign a named field of a record (setattr); an assignment to a name
outside the schema creates an attribute that pack never reads, so it is a
no-op on the packed representation. -/
def setFieldVal (s : List FieldSpec) (vals : RecordVals) (name : String) (v : PyVal) : RecordVals :=
  match fieldIdx s name with
  | some i => vals.set i v
  | none => vals

/-- Python value comparison for the key types the engine stores: int keys
compare numerically, str and bytes keys lexicographically. -/
def bytesLt : List Nat → List Nat → Bool
  | [], [] => false
  | [], _ :: _ => true
  | _ :: _, [] => false
  | a :: as, b :: bs => if a < b then true else if b < a then false else bytesLt as bs

/-- Python strict comparison on key values of like type. -/
def pyLt : PyVal → PyVal → Bool
  | .vint a, .vint b => decide (a < b)
  | .vstr a, .vstr b => bytesLt a b
  | .vbytes a, .vbytes b => bytesLt a b
  | _, _ => false

/-- The active flag of a sequential-file record, read with Python
truthiness as in the source conditionals. -/
def activeOf (cfg : SFConfig) (vals : RecordVals) : Bool :=
  match getFieldVal cfg.schema vals "active" with
  | some v => pyTruthy v
  | none => false

/-- State of a SequentialFile instance between public calls. -/
structure SeqState where
  main : List (List Byte)
  aux : List (List Byte)
  k : Nat
  deletedCount : Nat
  totalRecords : Nat
  deriving DecidableEq, Repr

/-- Outcome of the binary-search loop over main.dat in
SequentialFile.search: a key match yields the record when active and an
immediate miss when the slot is inactive (the source returns None without
scanning aux); otherwise the search falls through to the auxiliary scan. -/
inductive MainProbe
  | hit (vals : RecordVals)
  | hitInactive
  | miss
  deriving DecidableEq, Repr

/-- The while left less-or-equal right loop of SequentialFile.search over
main.dat, with explicit fuel; each iteration halves the interval, so fuel
equal to the file length plus two always suffices. -/
def seqSearchMainGo (cfg : SFConfig) (main : List (List Byte)) (key : PyVal) :
    Nat → Int → Int → MainProbe
  | 0, _, _ => .miss
  | fuel + 1, left, right =>
      if left ≤ right then
        let mid := (left + right) / 2
        match main.get? mid.toNat with
        | none => .miss
        | some bs =>
            let r := recordUnpack cfg.schema bs
            match getFieldVal cfg.schema r cfg.keyField with
            | none => .miss
            | some rk =>
                if rk == key then
                  if activeOf cfg r then .hit r else .hitInactive
                else if pyLt rk key then
                  seqSearchMainGo cfg main key fuel (mid + 1) right
                else
                  seqSearchMainGo cfg main key fuel left (mid - 1)
      else .miss

/-- The linear scan of aux.dat in SequentialFile.search: the first key
match decides the outcome. -/
def seqSearchAux (cfg : SFConfig) (aux : List (List Byte)) (key : PyVal) : Option RecordVals :=
  match aux with
  | [] => none
  | bs :: rest =>
      let r := recordUnpack cfg.schema bs
      match getFieldVal cfg.schema r cfg.keyField with
      | none => seqSearchAux cfg rest key
      | some rk =>
          if rk == key then (if activeOf cfg r then some r else none)
          else seqSearchAux cfg rest key

/-- SequentialFile.search: binary search in main.dat, then linear scan of
aux.dat. -/
def seqSearch (cfg : SFConfig) (st : SeqState) (key : PyVal) : Option RecordVals :=
  let probe :=
    if st.main.length > 0 then
      seqSearchMainGo cfg st.main key (st.main.length + 2) 0 ((st.main.length : Int) - 1)
    else
      .miss
  match probe with
  | .hit r => some r
  | .hitInactive => none
  | .miss => seqSearchAux cfg st.aux key

/-- SequentialFile.scan_all: active records of main.dat then aux.dat in
file order. -/
def seqScanAll (cfg : SFConfig) (st : SeqState) : List RecordVals :=
  ((st.main ++ st.aux).map (recordUnpack cfg.schema)).filter (fun r => activeOf cfg r)

/-- Key of a record for sorting, defaulting like the source would only for
records outside any well-formed schema. -/
def keyOfD (cfg : SFConfig) (r : RecordVals) : PyVal :=
  (getFieldVal cfg.schema r cfg.keyField).getD .vnone

/-- Insert an element in front of the first list element it compares
less-or-equal to. -/
def orderedInsertB {α : Type} (le : α → α → Bool) (a : α) : List α → List α
  | [] => [a]
  | b :: l => if le a b then a :: b :: l else b :: orderedInsertB le a l

/-- Stable sort realising Python list.sort: an element moves before a
later one exactly when its key is strictly smaller, so ties keep their
original order, as in any stable sort. -/
def insertionSortB {α : Type} (le : α → α → Bool) : List α → List α
  | [] => []
  | a :: l => orderedInsertB le a (insertionSortB le l)

/-- The stable sort by key used in SequentialFile.rebuild (list.sort with
key=get_key). -/
def seqSortRecords (cfg : SFConfig) (rs : List RecordVals) : List RecordVals :=
  insertionSortB (fun a b => !(pyLt (keyOfD cfg b) (keyOfD cfg a))) rs

/-- Floor of the base-two logarithm, with fuel driving the recursion;
intLog2 below instantiates the fuel so that it never runs out. -/
def log2Fuel : Nat → Nat → Nat
  | 0, _ => 0
  | fuel + 1, n => if 2 ≤ n then log2Fuel fuel (n / 2) + 1 else 0

/-- int of math.log2 n on the natural record counts handled here; the
lemma intLog2_eq_log2 identifies it with Nat.log2. -/
def intLog2 (n : Nat) : Nat := log2Fuel n n

/-- SequentialFile.rebuild: collect active records of both files, sort by
key, rewrite main.dat, truncate aux.dat, reset counters and recompute k
via update_k_dynamically, which keeps the old k only when no record is
left. -/
def seqRebuild (cfg : SFConfig) (st : SeqState) : Except String SeqState := do
  let records := seqSortRecords cfg (seqScanAll cfg st)
  let packed ← records.mapM (fun r =>
    match recordPack cfg.schema r with
    | some bs => Except.ok bs
    | none => Except.error "pack failed")
  let total := records.length
  Except.ok
    { main := packed
      aux := []
      deletedCount := 0
      totalRecords := total
      k := if total > 0 then max 1 (intLog2 total) else st.k }

/-- SequentialFile.insert: search for a duplicate key (raising ValueError
when found, modelled as an error), set active, append the packed record to
aux.dat, then rebuild exactly when the auxiliary count exceeds k.  The
returned Bool is the rebuild_triggered flag of the success result. -/
def seqInsert (cfg : SFConfig) (st : SeqState) (r : RecordVals) :
    Except String (Bool × SeqState) :=
  match getFieldVal cfg.schema r cfg.keyField with
  | none => Except.error "missing key field"
  | some key =>
      match seqSearch cfg st key with
      | some _ => Except.error "Record with this key already exists"
      | none =>
          let r2 := setFieldVal cfg.schema r "active" (.vbool true)
          match recordPack cfg.schema r2 with
          | none => Except.error "pack failed"
          | some bs =>
              let st1 : SeqState :=
                { st with aux := st.aux ++ [bs], totalRecords := st.totalRecords + 1 }
              if st1.aux.length > st1.k then do
                let st2 ← seqRebuild cfg st1
                Except.ok (true, st2)
              else
                Except.ok (false, st1)

/-! ISAM primary index (isam.py).  The data file is modelled as the list
of its pages in page-number order (the parsed view of the fixed-width
blocks), the leaf index file as the list of its leaf-index pages, the
root index file as its page 0 entry list, and the free-list file as the
stack of freed page numbers with the top at the end.  ISAM index entries
pack their keys with struct format ii, so primary keys are signed
integers. -/

/-- Schema information of the ISAM table. -/
structure IsamConfig where
  schema : List FieldSpec
  keyField : String
  deriving DecidableEq, Repr

/-- The integer primary key of a record (get_key); ISAM key fields are
INT, the default is never reached for records of a well-formed table. -/
def recKey (cfg : IsamConfig) (r : RecordVals) : Int :=
  match getFieldVal cfg.schema r cfg.keyField with
  | some (.vint i) => i
  | _ => 0

/-- One data page: parsed records plus the next_page overflow pointer
(minus one when none). -/
structure IsamPage where
  records : List RecordVals
  next : Int
  deriving DecidableEq, Repr

/-- One leaf-index entry (key, data_page_number). -/
structure LeafEntry where
  key : Int
  dataPage : Int
  deriving DecidableEq, Repr

/-- One leaf-index page with its sibling pointer. -/
structure LeafIndexPage where
  entries : List LeafEntry
  next : Int
  deriving DecidableEq, Repr

/-- One root-index entry (key, leaf_index_page_number). -/
structure RootEntry where
  key : Int
  leafPage : Int
  deriving DecidableEq, Repr

/-- State of an ISAMPrimaryIndex instance.  The block factors live in the
state because rebuild grows them. -/
structure IsamState where
  pages : List IsamPage
  leafPages : List LeafIndexPage
  rootEntries : List RootEntry
  freeList : List Int
  blockFactor : Nat
  leafBlockFactor : Nat
  rootBlockFactor : Nat
  consolidationThreshold : Nat
  deriving DecidableEq, Repr

/-- The binary-search loop of RootIndex.find_leaf_page_for_key: result is
the page of the last probed entry whose key is at most the query. -/
def rootFindGo (entries : List RootEntry) (key : Int) :
    Nat → Int → Int → Int → Int
  | 0, _, _, res => res
  | fuel + 1, left, right, res =>
      if left ≤ right then
        let mid := (left + right) / 2
        match entries.get? mid.toNat with
        | none => res
        | some e =>
            if key < e.key then rootFindGo entries key fuel left (mid - 1) res
            else rootFindGo entries key fuel (mid + 1) right e.leafPage
      else res

/-- RootIndex.find_leaf_page_for_key. -/
def findLeafPageForKey (entries : List RootEntry) (key : Int) : Int :=
  if entries.isEmpty then 0
  else rootFindGo entries key (entries.length + 2) 0 ((entries.length : Int) - 1) 0

/-- The binary-search loop of LeafIndex.find_data_page_for_key. -/
def leafFindGo (entries : List LeafEntry) (key : Int) :
    Nat → Int → Int → Int → Int
  | 0, _, _, res => res
  | fuel + 1, left, right, res =>
      if left ≤ right then
        let mid := (left + right) / 2
        match entries.get? mid.toNat with
        | none => res
        | some e =>
            if key < e.key then leafFindGo entries key fuel left (mid - 1) res
            else leafFindGo entries key fuel (mid + 1) right e.dataPage
      else res

/-- LeafIndex.find_data_page_for_key. -/
def findDataPageForKey (entries : List LeafEntry) (key : Int) : Int :=
  if entries.isEmpty then 0
  else leafFindGo entries key (entries.length + 2) 0 ((entries.length : Int) - 1) 0

/-- Entries of a leaf-index page by page number, empty when the read
falls outside the file. -/
def leafEntriesAt (st : IsamState) (n : Int) : List LeafEntry :=
  ((st.leafPages.get? n.toNat).getD ⟨[], -1⟩).entries

/-- The chain walk of ISAMPrimaryIndex method search_in_page_chain, with
its visited set; a failed page read breaks the loop as the source catches
the exception. -/
def chainSearchGo (cfg : IsamConfig) (pages : List IsamPage) (key : Int) :
    Nat → Int → List Int → Option RecordVals
  | 0, _, _ => none
  | fuel + 1, cur, visited =>
      if cur < 0 || visited.contains cur then none
      else
        match pages.get? cur.toNat with
        | none => none
        | some p =>
            match p.records.find? (fun r => recKey cfg r == key) with
            | some r => some r
            | none => chainSearchGo cfg pages key fuel p.next (cur :: visited)

/-- ISAMPrimaryIndex.search: root lookup, leaf lookup, then the chain
walk. -/
def isamSearch (cfg : IsamConfig) (st : IsamState) (key : Int) : Option RecordVals :=
  let leafPageNum := findLeafPageForKey st.rootEntries key
  let dataPageNum := findDataPageForKey (leafEntriesAt st leafPageNum) key
  chainSearchGo cfg st.pages key (st.pages.length + 1) dataPageNum []

/-- The binary-search loop of Page.insert_sorted, which raises on a
probed duplicate key. -/
def pageInsertGo (cfg : IsamConfig) (records : List RecordVals) (key : Int) :
    Nat → Nat → Nat → Except String Nat
  | 0, left, _ => Except.ok left
  | fuel + 1, left, right =>
      if left < right then
        let mid := (left + right) / 2
        match records.get? mid with
        | none => Except.ok left
        | some rm =>
            if recKey cfg rm == key then
              Except.error "Primary key already exists in page"
            else if recKey cfg rm < key then
              pageInsertGo cfg records key fuel (mid + 1) right
            else
              pageInsertGo cfg records key fuel left mid
      else Except.ok left

/-- Page.insert_sorted. -/
def pageInsertSorted (cfg : IsamConfig) (p : IsamPage) (r : RecordVals) :
    Except String IsamPage := do
  let pos ← pageInsertGo cfg p.records (recKey cfg r) (p.records.length + 2) 0 p.records.length
  Except.ok { p with records := p.records.insertIdx pos r }

/-- Write a page back at its page number, extending the file when the
number is at (or past, leaving zeroed holes) the current end. -/
def writePage (st : IsamState) (n : Int) (p : IsamPage) : IsamState :=
  let i := n.toNat
  if i < st.pages.length then { st with pages := st.pages.set i p }
  else
    { st with
        pages := (st.pages ++ List.replicate (i - st.pages.length) ⟨[], 0⟩) ++ [p] }

/-- Write a leaf-index page back, extending the file when needed. -/
def writeLeafPage (st : IsamState) (n : Int) (lp : LeafIndexPage) : IsamState :=
  let i := n.toNat
  if i < st.leafPages.length then { st with leafPages := st.leafPages.set i lp }
  else
    { st with
        leafPages := (st.leafPages ++ List.replicate (i - st.leafPages.length) ⟨[], 0⟩) ++ [lp] }

/-- The stable sort by get_key used on page splits and rebuild. -/
def isamSortRecords (cfg : IsamConfig) (rs : List RecordVals) : List RecordVals :=
  insertionSortB (fun a b => !(decide (recKey cfg b < recKey cfg a))) rs

/-- LeafIndex.insert_sorted: the bisect loop inserts at the leftmost
position whose entry key is at least the new key. -/
def insertLeafEntrySorted (es : List LeafEntry) (e : LeafEntry) : List LeafEntry :=
  es.takeWhile (fun x => decide (x.key < e.key)) ++
    e :: es.dropWhile (fun x => decide (x.key < e.key))

/-- RootIndex.insert_sorted, same insertion discipline. -/
def insertRootEntrySorted (es : List RootEntry) (e : RootEntry) : List RootEntry :=
  es.takeWhile (fun x => decide (x.key < e.key)) ++
    e :: es.dropWhile (fun x => decide (x.key < e.key))

/-- First step of update_leaf_index_after_split: rewrite the key of the
first entry pointing at the split page. -/
def updateFirstMatching : List LeafEntry → Int → Int → List LeafEntry
  | [], _, _ => []
  | e :: es, target, newKey =>
      if e.dataPage == target then { e with key := newKey } :: es
      else e :: updateFirstMatching es target newKey

/-- ISAMPrimaryIndex method update_root_index_with_new_page (a full root
only triggers a printed warning in the source). -/
def updateRootIndexWithNewPage (st : IsamState) (key : Int) (leafPageNum : Int) : IsamState :=
  { st with rootEntries := insertRootEntrySorted st.rootEntries ⟨key, leafPageNum⟩ }

/-- ISAMPrimaryIndex method split_leaf_index_page: halve the overloaded
leaf-index page, append the right half as a new page, thread the sibling
pointers, promote the right separator to the root. -/
def splitLeafIndexPage (st : IsamState) (leafPageNum : Int) (overloaded : LeafIndexPage) :
    Except String IsamState :=
  let mid := overloaded.entries.length / 2
  let leftE := overloaded.entries.take mid
  let rightE := overloaded.entries.drop mid
  let newLeafNum := (st.leafPages.length : Int)
  let st1 := writeLeafPage st leafPageNum ⟨leftE, newLeafNum⟩
  let st2 := writeLeafPage st1 newLeafNum ⟨rightE, overloaded.next⟩
  match rightE.head? with
  | none => Except.error "split of an empty leaf index page"
  | some e => Except.ok (updateRootIndexWithNewPage st2 e.key newLeafNum)

/-- ISAMPrimaryIndex method update_leaf_index_after_split. -/
def updateLeafIndexAfterSplit (st : IsamState) (rightKey : Int) (rightPageNum : Int)
    (leftPageNum : Int) (leftKey : Int) (leafPageNum : Int) : Except String IsamState :=
  match st.leafPages.get? leafPageNum.toNat with
  | none => Except.error "leaf index read failed"
  | some li =>
      let entries1 := updateFirstMatching li.entries leftPageNum leftKey
      let entries2 := insertLeafEntrySorted entries1 ⟨rightKey, rightPageNum⟩
      if entries2.length > st.leafBlockFactor then
        splitLeafIndexPage st leafPageNum ⟨entries2, li.next⟩
      else
        Except.ok (writeLeafPage st leafPageNum ⟨entries2, li.next⟩)

/-- Overflow strategy 1 (split_page_strategy): split the full data page
in two around the median, append the right half as a new page and update
the leaf index; both halves start with an empty overflow pointer. -/
def splitPageStrategy (cfg : IsamConfig) (st : IsamState) (pageNum : Int)
    (p : IsamPage) (r : RecordVals) (leafPageNum : Int) : Except String IsamState :=
  let allRecs := isamSortRecords cfg (p.records ++ [r])
  let mid := allRecs.length / 2
  let leftRecs := allRecs.take mid
  let rightRecs := allRecs.drop mid
  match rightRecs.head?, leftRecs.head? with
  | some rh, some lh =>
      let st1 := writePage st pageNum ⟨leftRecs, -1⟩
      let newPageNum := (st1.pages.length : Int)
      let st2 := writePage st1 newPageNum ⟨rightRecs, -1⟩
      updateLeafIndexAfterSplit st2 (recKey cfg rh) newPageNum pageNum (recKey cfg lh) leafPageNum
  | _, _ => Except.error "page split with too few records"

/-- Overflow strategy 2 (split_leaf_index_strategy): split the data page
and add the separator to the leaf index, splitting the leaf-index page
itself when it overflows. -/
def splitLeafIndexStrategy (cfg : IsamConfig) (st : IsamState) (pageNum : Int)
    (p : IsamPage) (r : RecordVals) (leafPageNum : Int) : Except String IsamState :=
  let allRecs := isamSortRecords cfg (p.records ++ [r])
  let mid := allRecs.length / 2
  let leftRecs := allRecs.take mid
  let rightRecs := allRecs.drop mid
  match rightRecs.head? with
  | none => Except.error "page split with too few records"
  | some rh =>
      let st1 := writePage st pageNum ⟨leftRecs, -1⟩
      let newDataPageNum := (st1.pages.length : Int)
      let st2 := writePage st1 newDataPageNum ⟨rightRecs, -1⟩
      match st2.leafPages.get? leafPageNum.toNat with
      | none => Except.error "leaf index read failed"
      | some li =>
          let entries2 := insertLeafEntrySorted li.entries ⟨recKey cfg rh, newDataPageNum⟩
          if entries2.length > st2.leafBlockFactor then
            splitLeafIndexPage st2 leafPageNum ⟨entries2, li.next⟩
          else
            Except.ok (writeLeafPage st2 leafPageNum ⟨entries2, li.next⟩)

/-- The chain walk of ISAMPrimaryIndex method
find_available_or_last_page_in_chain: first page with room, else the
chain tail flagged as needing a new page. -/
def findAvailOrLastGo (pages : List IsamPage) (blockFactor : Nat) :
    Nat → Int → Option (Int × IsamPage × Bool)
  | 0, _ => none
  | fuel + 1, cur =>
      if cur = -1 then none
      else
        match pages.get? cur.toNat with
        | none => none
        | some p =>
            if p.records.length < blockFactor then some (cur, p, false)
            else if p.next = -1 then some (cur, p, true)
            else findAvailOrLastGo pages blockFactor fuel p.next

/-- Overflow strategy 3 (overflow_page_strategy): place the record in the
first chain page with room, otherwise append a new overflow bucket to the
chain tail, reusing a free-list page when one exists.  The source applies
no bound on the chain length here. -/
def overflowPageStrategy (cfg : IsamConfig) (st : IsamState) (pageNum : Int)
    (r : RecordVals) : Except String IsamState :=
  match findAvailOrLastGo st.pages st.blockFactor (st.pages.length + 1) pageNum with
  | none => Except.error "chain walk failed"
  | some (num, p, needNew) =>
      if needNew then
        match st.freeList.getLast? with
        | some freeNum =>
            let st1 := { st with freeList := st.freeList.dropLast }
            let st2 := writePage st1 freeNum ⟨[r], -1⟩
            Except.ok (writePage st2 num { p with next := freeNum })
        | none =>
            let newNum := (st.pages.length : Int)
            let st2 := writePage st newNum ⟨[r], -1⟩
            Except.ok (writePage st2 num { p with next := newNum })
      else do
        let p2 ← pageInsertSorted cfg p r
        Except.ok (writePage st num p2)

/-- ISAMPrimaryIndex method handle_page_overflow: choose the lightest
available strategy in order. -/
def handlePageOverflow (cfg : IsamConfig) (st : IsamState) (pageNum : Int)
    (p : IsamPage) (r : RecordVals) (leafPageNum : Int) : Except String IsamState :=
  match st.leafPages.get? leafPageNum.toNat with
  | none => Except.error "leaf index read failed"
  | some li =>
      if li.entries.length < st.leafBlockFactor then
        splitPageStrategy cfg st pageNum p r leafPageNum
      else if st.rootEntries.length < st.rootBlockFactor then
        splitLeafIndexStrategy cfg st pageNum p r leafPageNum
      else
        overflowPageStrategy cfg st pageNum r

/-- True when no leaf-index entry references the page
(is_overflow_page). -/
def isOverflowPage (st : IsamState) (n : Int) : Bool :=
  !(st.leafPages.any (fun lp => lp.entries.any (fun e => e.dataPage == n)))

/-- The capped counting loop inside count_overflow_chain_length. -/
def countChainGo (pages : List IsamPage) : Nat → Int → Nat → Nat
  | 0, _, len => len
  | fuel + 1, cur, len =>
      if cur < 0 || len ≥ 10 then len
      else
        match pages.get? cur.toNat with
        | none => len
        | some p => countChainGo pages fuel p.next (len + 1)

/-- ISAMPrimaryIndex method count_overflow_chain_length: number of
overflow buckets hanging off a main page, counted up to the cap of 10. -/
def countOverflowChainLength (st : IsamState) (startNum : Int) : Nat :=
  if isOverflowPage st startNum then 0
  else
    match st.pages.get? startNum.toNat with
    | none => 0
    | some p =>
        if p.next = -1 then 0
        else countChainGo st.pages (st.pages.length + 10) p.next 1

/-- The chain census of the rebuild predicate: number of main pages with
a chain and the summed chain lengths. -/
def chainStats (st : IsamState) : Nat × Nat :=
  (List.range st.pages.length).foldl
    (fun acc i =>
      if !(isOverflowPage st (i : Int)) then
        let len := countOverflowChainLength st (i : Int)
        if len > 0 then (acc.1 + 1, acc.2 + len) else acc
      else acc)
    (0, 0)

/-- ISAMPrimaryIndex method should_rebuild.  The two float comparisons
free over total greater than 0.40 and mean chain length greater than 4.0
are expressed by the exact integer comparisons they compute at the file
sizes the engine handles. -/
def isamShouldRebuild (st : IsamState) : Bool :=
  let freeCount := st.freeList.length
  if freeCount = 0 then false
  else
    let totalPages := st.pages.length
    if totalPages = 0 then false
    else if 5 * freeCount > 2 * totalPages then true
    else
      let stats := chainStats st
      if stats.1 > 0 then decide (stats.2 > 4 * stats.1) else false

/-- One chain collection step of scan_all, threading the visited set. -/
def chainCollect (pages : List IsamPage) : Nat → Int → List Nat → List RecordVals × List Nat
  | 0, _, v => ([], v)
  | fuel + 1, cur, v =>
      if cur < 0 || v.contains cur.toNat then ([], v)
      else
        match pages.get? cur.toNat with
        | none => ([], v)
        | some p =>
            let rest := chainCollect pages fuel p.next (cur.toNat :: v)
            (p.records ++ rest.1, rest.2)

/-- ISAMPrimaryIndex.scan_all: walk every page chain once in file order
and emit records in chain order. -/
def isamScanAll (st : IsamState) : List RecordVals :=
  ((List.range st.pages.length).foldl
    (fun (acc : List RecordVals × List Nat) i =>
      if acc.2.contains i then acc
      else
        let got := chainCollect st.pages (st.pages.length + 1) (i : Int) acc.2
        (acc.1 ++ got.1, got.2))
    ([], [])).1

/-- ISAMPrimaryIndex method create_initial_files, reached by the first
insert when the data file does not exist (modelled as an empty page
list). -/
def createInitialFiles (cfg : IsamConfig) (st : IsamState) (r : RecordVals) : IsamState :=
  { st with
      pages := [⟨[r], -1⟩]
      leafPages := [⟨[⟨recKey cfg r, 0⟩], -1⟩]
      rootEntries := []
      freeList := [] }

/-- The mutation phase of ISAMPrimaryIndex.insert after the duplicate
check, on an existing file. -/
def isamInsertCore (cfg : IsamConfig) (st : IsamState) (r : RecordVals) :
    Except String IsamState :=
  let key := recKey cfg r
  let leafPageNum := findLeafPageForKey st.rootEntries key
  let dataPageNum := findDataPageForKey (leafEntriesAt st leafPageNum) key
  match st.pages.get? dataPageNum.toNat with
  | none => Except.error "data page read failed"
  | some p =>
      if p.records.length < st.blockFactor then do
        let p2 ← pageInsertSorted cfg p r
        Except.ok (writePage st dataPageNum p2)
      else
        handlePageOverflow cfg st dataPageNum p r leafPageNum

mutual

/-- ISAMPrimaryIndex.insert with explicit rebuild-nesting fuel: duplicate
check (a duplicate raises ValueError), initial file creation, placement,
then the rebuild predicate.  The source truncates the free list at the
start of every rebuild, making the predicate false for the reinserting
calls, so any positive nesting depth reproduces every terminating source
execution. -/
def isamInsertFuel : Nat → IsamConfig → IsamState → RecordVals →
    Except String (IsamState × Bool)
  | 0, _, _, _ => Except.error "rebuild nesting exhausted"
  | fuel + 1, cfg, st, r =>
      match isamSearch cfg st (recKey cfg r) with
      | some _ => Except.error "Primary key already exists"
      | none =>
          if st.pages.isEmpty then Except.ok (createInitialFiles cfg st r, false)
          else
            match isamInsertCore cfg st r with
            | Except.error e => Except.error e
            | Except.ok st1 =>
                if isamShouldRebuild st1 then
                  match isamRebuildFuel fuel cfg st1 with
                  | Except.error e => Except.error e
                  | Except.ok st2 => Except.ok (st2, true)
                else Except.ok (st1, false)

/-- ISAMPrimaryIndex.rebuild: scan and sort every record, grow the block
factors (1.5 and 1.3 times, truncated as the source float products
truncate at these sizes), clear the files and the free list, and reinsert
every record. -/
def isamRebuildFuel : Nat → IsamConfig → IsamState → Except String IsamState
  | 0, _, _ => Except.error "rebuild nesting exhausted"
  | fuel + 1, cfg, st =>
      let records := isamSortRecords cfg (isamScanAll st)
      let newBlock := 13 * st.blockFactor / 10
      let st1 : IsamState :=
        { pages := []
          leafPages := []
          rootEntries := []
          freeList := []
          blockFactor := newBlock
          leafBlockFactor := 3 * st.leafBlockFactor / 2
          rootBlockFactor := 3 * st.rootBlockFactor / 2
          consolidationThreshold := newBlock / 3 }
      records.foldlM (fun s r => (isamInsertFuel fuel cfg s r).map (·.1)) st1

end

/-- ISAMPrimaryIndex.insert at the standard nesting budget. -/
def isamInsert (cfg : IsamConfig) (st : IsamState) (r : RecordVals) :
    Except String (IsamState × Bool) :=
  isamInsertFuel 2 cfg st r

/-! Clustered B+ tree (bplus_tree_clustered.py).  The node file is
modelled as the list of its node slots indexed by node id; slot 0 is the
metadata block and a none slot is an all-zero tombstone.  Keys are the
normalised INT keys (CHAR keys are normalised to padding-free form before
every comparison, which this model takes as given).  The record payload
is abstract: the tree moves records without inspecting them. -/

/-- max_keys as set by the constructor of BPlusTreeClusteredIndex. -/
def clusteredMaxKeys (order : Nat) : Nat := order - 1

/-- min_keys as set by the constructor of BPlusTreeClusteredIndex, with
Python floor division. -/
def clusteredMinKeys (order : Nat) : Nat := (order + 1) / 2 - 1

/-- max_keys as set by the constructor of BPlusTreeUnclusteredIndex. -/
def unclusteredMaxKeys (order : Nat) : Nat := order - 1

/-- min_keys as set by the constructor of BPlusTreeUnclusteredIndex. -/
def unclusteredMinKeys (order : Nat) : Nat := (order + 1) / 2 - 1

/-- A B+ tree node: a leaf with parallel key and record lists and the
doubly linked chain pointers, or an internal node with child ids. -/
inductive BNode (ρ : Type)
  | leaf (id : Nat) (keys : List Int) (recs : List ρ)
      (prev : Option Nat) (next : Option Nat) (parent : Option Nat)
  | internal (id : Nat) (keys : List Int) (children : List Nat) (parent : Option Nat)
  deriving DecidableEq, Repr

/-- Node id of a node (node_id attribute). -/
def BNode.nid {ρ : Type} : BNode ρ → Nat
  | .leaf i _ _ _ _ _ => i
  | .internal i _ _ _ => i

/-- Parent pointer of a node. -/
def BNode.parentOf {ρ : Type} : BNode ρ → Option Nat
  | .leaf _ _ _ _ _ pa => pa
  | .internal _ _ _ pa => pa

/-- Reassign the parent pointer. -/
def BNode.setParent {ρ : Type} : BNode ρ → Option Nat → BNode ρ
  | .leaf i ks rs pv nx _, pa => .leaf i ks rs pv nx pa
  | .internal i ks cs _, pa => .internal i ks cs pa

/-- Assigning prev_leaf_id: on an internal node the source sets a Python
attribute that the node serialiser never reads, so the stored node is
unchanged. -/
def BNode.setPrevLeaf {ρ : Type} : BNode ρ → Nat → BNode ρ
  | .leaf i ks rs _ nx pa, newPrev => .leaf i ks rs (some newPrev) nx pa
  | n, _ => n

/-- State of a clustered B+ tree instance. -/
structure BPState (ρ : Type) where
  nodes : List (Option (BNode ρ))
  rootId : Nat
  nextId : Nat
  order : Nat
  deriving DecidableEq, Repr

/-- Store a value at a slot, extending the store with empty slots as the
node file extends with zero blocks. -/
def storeSet {α : Type} (l : List (Option α)) (i : Nat) (v : Option α) : List (Option α) :=
  if i < l.length then l.set i v
  else (l ++ List.replicate (i - l.length) none) ++ [v]

/-- read_node: node 0 is the metadata block and unreadable slots yield
none. -/
def readNode {ρ : Type} (st : BPState ρ) (id : Nat) : Option (BNode ρ) :=
  if id = 0 then none else (st.nodes.get? id).join

/-- write_node. -/
def writeNode {ρ : Type} (st : BPState ρ) (id : Nat) (n : BNode ρ) : BPState ρ :=
  { st with nodes := storeSet st.nodes id (some n) }

/-- mark_node_as_deleted: the slot becomes an all-zero tombstone. -/
def markNodeDeleted {ρ : Type} (st : BPState ρ) (id : Nat) : BPState ρ :=
  { st with nodes := storeSet st.nodes id none }

/-- bisect.bisect_left on the sorted key list of a node: the leftmost
insertion point, which is the count of keys strictly below the probe. -/
def bisectLeft (l : List Int) (k : Int) : Nat :=
  match l with
  | [] => 0
  | x :: xs => if x < k then bisectLeft xs k + 1 else 0

/-- bisect.bisect_right: the rightmost insertion point, the count of keys
at most the probe. -/
def bisectRight (l : List Int) (k : Int) : Nat :=
  match l with
  | [] => 0
  | x :: xs => if x ≤ k then bisectRight xs k + 1 else 0

/-- Failure kinds of a tree mutation: valErr models a raised ValueError
(duplicate key, malformed parent), which insert catches and converts into
a failed result; broken models any other crash of the source on a corrupt
store. -/
inductive BptErr
  | valErr
  | broken
  deriving DecidableEq, Repr

mutual

/-- BPlusTreeClusteredIndex method promote_key_to_parent. -/
def promoteKeyToParent {ρ : Type} : Nat → BPState ρ → BNode ρ → Int → Nat →
    Except BptErr (BPState ρ)
  | 0, _, _, _, _ => .error .broken
  | fuel + 1, st, left, key, rightId =>
      match left.parentOf with
      | none =>
          let newRootId := st.nextId
          let st1 := { st with nextId := st.nextId + 1 }
          let newRoot : BNode ρ := .internal newRootId [key] [left.nid, rightId] none
          let left2 := left.setParent (some newRootId)
          match readNode st1 rightId with
          | none => .error .broken
          | some right =>
              let right2 := right.setParent (some newRootId)
              let st2 := writeNode st1 left2.nid left2
              let st3 := writeNode st2 rightId right2
              let st4 := writeNode st3 newRootId newRoot
              .ok { st4 with rootId := newRootId }
      | some pid =>
          match readNode st pid with
          | some (.internal _ pkeys pchildren ppa) =>
              let pos := bisectLeft pkeys key
              let pkeys2 := pkeys.insertIdx pos key
              let pchildren2 := pchildren.insertIdx (pos + 1) rightId
              let parent2 : BNode ρ := .internal pid pkeys2 pchildren2 ppa
              match readNode st rightId with
              | none => .error .broken
              | some right =>
                  let right2 := right.setParent (some pid)
                  let st1 := writeNode st rightId right2
                  let st2 := writeNode st1 left.nid left
                  let st3 := writeNode st2 pid parent2
                  if pkeys2.length ≥ clusteredMaxKeys st3.order then
                    splitInternalNode fuel st3 parent2
                  else
                    .ok st3
          | some (.leaf _ _ _ _ _ _) => .error .valErr
          | none => .error .valErr

/-- BPlusTreeClusteredIndex method split_internal_node. -/
def splitInternalNode {ρ : Type} : Nat → BPState ρ → BNode ρ →
    Except BptErr (BPState ρ)
  | 0, _, _ => .error .broken
  | fuel + 1, st, node =>
      match node with
      | .leaf _ _ _ _ _ _ => .error .broken
      | .internal nid keys children parent =>
          let newId := st.nextId
          let st1 := { st with nextId := st.nextId + 1 }
          let mid := keys.length / 2
          match keys.get? mid with
          | none => .error .broken
          | some promoteKey =>
              let newInternal : BNode ρ :=
                .internal newId (keys.drop (mid + 1)) (children.drop (mid + 1)) parent
              let internal2 : BNode ρ :=
                .internal nid (keys.take mid) (children.take (mid + 1)) parent
              match
                (children.drop (mid + 1)).foldlM
                  (fun s cid =>
                    match readNode s cid with
                    | none => Except.error BptErr.broken
                    | some c => Except.ok (writeNode s cid (c.setParent (some newId))))
                  st1 with
              | .error e => .error e
              | .ok st2 =>
                  let st3 := writeNode st2 nid internal2
                  let st4 := writeNode st3 newId newInternal
                  promoteKeyToParent fuel st4 internal2 promoteKey newId

/-- BPlusTreeClusteredIndex method split_leaf_node. -/
def splitLeafNode {ρ : Type} : Nat → BPState ρ → BNode ρ →
    Except BptErr (BPState ρ)
  | 0, _, _ => .error .broken
  | fuel + 1, st, node =>
      match node with
      | .internal _ _ _ _ => .error .broken
      | .leaf lid keys recs prev next parent =>
          let newId := st.nextId
          let st1 := { st with nextId := st.nextId + 1 }
          let mid := keys.length / 2
          let newLeaf : BNode ρ :=
            .leaf newId (keys.drop mid) (recs.drop mid) (some lid) next parent
          let step2 : Except BptErr (BPState ρ) :=
            match next with
            | none => .ok st1
            | some nid2 =>
                match readNode st1 nid2 with
                | none => .error .broken
                | some nxt => .ok (writeNode st1 nid2 (nxt.setPrevLeaf newId))
          match step2 with
          | .error e => .error e
          | .ok st2 =>
              let leaf2 : BNode ρ :=
                .leaf lid (keys.take mid) (recs.take mid) prev (some newId) parent
              let st3 := writeNode st2 lid leaf2
              let st4 := writeNode st3 newId newLeaf
              match (keys.drop mid).head? with
              | none => .error .broken
              | some promoteKey => promoteKeyToParent fuel st4 leaf2 promoteKey newId

end

/-- BPlusTreeClusteredIndex method insert_into_leaf: reject a duplicate
with ValueError, insert in order, split when the leaf has reached
max_keys keys. -/
def insertIntoLeaf {ρ : Type} (fuel : Nat) (st : BPState ρ) (node : BNode ρ)
    (key : Int) (r : ρ) : Except BptErr (BPState ρ) :=
  match node with
  | .internal _ _ _ _ => .error .broken
  | .leaf lid keys recs prev next parent =>
      let pos := bisectLeft keys key
      if keys.get? pos == some key then .error .valErr
      else
        let keys2 := keys.insertIdx pos key
        let recs2 := recs.insertIdx pos r
        let leaf2 : BNode ρ := .leaf lid keys2 recs2 prev next parent
        let st1 := writeNode st lid leaf2
        if keys2.length ≥ clusteredMaxKeys st1.order then
          splitLeafNode fuel st1 leaf2
        else
          .ok st1

/-- BPlusTreeClusteredIndex method insert_into_tree: descend by
bisect_right to the target leaf. -/
def insertIntoTree {ρ : Type} : Nat → BPState ρ → Nat → Int → ρ →
    Except BptErr (BPState ρ)
  | 0, _, _, _, _ => .error .broken
  | fuel + 1, st, nodeId, key, r =>
      match readNode st nodeId with
      | none => .error .broken
      | some (.leaf lid ks rs pv nx pa) =>
          insertIntoLeaf fuel st (.leaf lid ks rs pv nx pa) key r
      | some (.internal _ ks children _) =>
          match children.get? (bisectRight ks key) with
          | none => .error .broken
          | some c => insertIntoTree fuel st c key r

/-- BPlusTreeClusteredIndex.insert: run the descent from the root and
catch ValueError into a failed result (data false); none models a crash
that the source would not catch. -/
def bplusInsert {ρ : Type} (st : BPState ρ) (key : Int) (r : ρ) :
    Option (Bool × BPState ρ) :=
  match insertIntoTree (st.nodes.length + 2) st st.rootId key r with
  | .ok st1 => some (true, st1)
  | .error .valErr => some (false, st)
  | .error .broken => none

/-- BPlusTreeClusteredIndex method find_leaf_for_key (the search
descent). -/
def bplusFindLeaf {ρ : Type} : Nat → BPState ρ → Nat → Int → Option (BNode ρ)
  | 0, _, _, _ => none
  | fuel + 1, st, cur, key =>
      match readNode st cur with
      | none => none
      | some (.leaf lid ks rs pv nx pa) => some (.leaf lid ks rs pv nx pa)
      | some (.internal _ ks children _) =>
          match children.get? (bisectRight ks key) with
          | none => none
          | some c => bplusFindLeaf fuel st c key

/-- BPlusTreeClusteredIndex.search. -/
def bplusSearch {ρ : Type} (st : BPState ρ) (key : Int) : Option ρ :=
  match bplusFindLeaf (st.nodes.length + 2) st st.rootId key with
  | some (.leaf _ ks rs _ _ _) =>
      let pos := bisectLeft ks key
      match ks.get? pos, rs.get? pos with
      | some k2, some r => if k2 == key then some r else none
      | _, _ => none
  | _ => none

/-- Number of leaf nodes in the store. -/
def numLeaves {ρ : Type} (st : BPState ρ) : Nat :=
  st.nodes.countP (fun o =>
    match o with
    | some (.leaf _ _ _ _ _ _) => true
    | _ => false)

/-- A freshly initialised tree holds a single empty root leaf at node 1;
this is that tree after the keys ks with records rs reached the leaf. -/
def singleLeafTree {ρ : Type} (order : Nat) (ks : List Int) (rs : List ρ) : BPState ρ :=
  { nodes := [none, some (.leaf 1 ks rs none none none)]
    rootId := 1
    nextId := 2
    order := order }

/-! Extendible hash secondary index (extendible_hashing.py), with
BLOCK_FACTOR 20, MAX_OVERFLOW 2 and MIN_N 10.  The bucket file is the
list of its fixed-size buckets with the byte offset replaced by the
bucket index; the directory file is its header plus the list of bucket
indices.  The md5 digest of hash_key is an opaque stable function of the
normalised value bytes, taken as the parameter hashFn.  The two counters
returned with each call count exactly the track_read and track_write
invocations of the source. -/

/-- Records per bucket. -/
def EH_BLOCK_FACTOR : Nat := 20

/-- Overflow buckets allowed per chain before a directory double. -/
def EH_MAX_OVERFLOW : Nat := 2

/-- An IndexRecord payload (index_value, primary_key). -/
structure IdxRec where
  value : PyVal
  pk : Int
  deriving DecidableEq, Repr

/-- Remove leading and trailing bytes satisfying a predicate, as Python
strip does. -/
def stripEnds (p : Byte → Bool) (l : List Byte) : List Byte :=
  ((l.dropWhile p).reverse.dropWhile p).reverse

/-- Python whitespace for strip. -/
def isPyWhitespace (c : Byte) : Bool :=
  c == 32 || c == 9 || c == 10 || c == 13 || c == 11 || c == 12

/-- ExtendibleHashing method normalize_value: None becomes the empty
string, bytes are decoded then stripped of nul bytes and whitespace at
both ends, anything else goes through str and loses surrounding
whitespace. -/
def ehNormalize (v : PyVal) : List Byte :=
  match v with
  | .vnone => []
  | .vbytes b => stripEnds isPyWhitespace (stripEnds (fun c => c == 0) b)
  | other => stripEnds isPyWhitespace (pyStrBytes other)

/-- One stored bucket: the header quadruple and the BLOCK_FACTOR parsed
slots, where none is an all-zero tombstone. -/
structure EBucket where
  localDepth : Nat
  numSlots : Nat
  numRecords : Nat
  next : Int
  data : List (Option IdxRec)
  deriving DecidableEq, Repr

/-- The records list built by read_bucket: the non-tombstone slots among
the first numSlots slots. -/
def EBucket.records (b : EBucket) : List IdxRec :=
  (b.data.take b.numSlots).filterMap id

/-- A bucket as freshly written by append_new_bucket. -/
def ehFreshBucket (ld : Nat) : EBucket :=
  ⟨ld, 0, 0, -1, List.replicate EH_BLOCK_FACTOR none⟩

/-- Constructor data of an ExtendibleHashing instance that insert needs:
the declared byte size of the indexed field. -/
structure EHConfig where
  valueSize : Nat
  deriving DecidableEq, Repr

/-- State of the two files of an ExtendibleHashing instance. -/
structure EHState where
  globalDepth : Nat
  firstFree : Int
  directory : List Nat
  buckets : List EBucket
  deriving DecidableEq, Repr

/-- The file state right after initialize_files (initial depth 3, two
buckets of local depth 1 shared by parity). -/
def ehInitialState : EHState :=
  { globalDepth := 3
    firstFree := -1
    directory := [0, 1, 0, 1, 0, 1, 0, 1]
    buckets := [ehFreshBucket 1, ehFreshBucket 1] }

/-- Store a bucket at its position; allocations only ever write at an
existing position or at the file end. -/
def ehSetBucket (st : EHState) (pos : Nat) (b : EBucket) : EHState :=
  if pos < st.buckets.length then { st with buckets := st.buckets.set pos b }
  else if pos = st.buckets.length then { st with buckets := st.buckets ++ [b] }
  else st

/-- Bucket.insert: capacity check, exact-pair duplicate check, tombstone
reuse or slot extension, then the record and header writes.  The two
False cases (bucket full, exact duplicate present in this bucket) return
none and write nothing. -/
def bucketInsert (b : EBucket) (r : IdxRec) : Option (EBucket × Nat) :=
  if b.numRecords ≥ EH_BLOCK_FACTOR then none
  else if b.records.any (fun e =>
      ehNormalize e.value == ehNormalize r.value && e.pk == r.pk) then none
  else
    let slot? : Option Nat :=
      if b.numSlots > b.numRecords then
        (List.range b.numSlots).find? (fun i => b.data.get? i == some none)
      else none
    match slot? with
    | some i =>
        some ({ b with data := b.data.set i (some r), numRecords := b.numRecords + 1 }, 2)
    | none =>
        if b.numRecords < EH_BLOCK_FACTOR then
          some ({ b with
                    data := b.data.set b.numSlots (some r)
                    numSlots := b.numSlots + 1
                    numRecords := b.numRecords + 1 }, 2)
        else none

/-- Outcome of the chain-walk loop at the top of method
insert_index_record. -/
inductive EHChainRes
  | placed (st : EHState) (reads : Nat) (writes : Nat)
  | ended (tailPos : Nat) (overflowCount : Nat) (reads : Nat)
  | crashed
  deriving Repr

/-- The chain-walk loop of method insert_index_record: place into the
first chain bucket with room that accepts the record, else walk to the
chain tail counting overflow buckets. -/
def ehChainGo (st : EHState) (r : IdxRec) : Nat → Nat → Nat → Nat → EHChainRes
  | 0, _, _, _ => .crashed
  | fuel + 1, pos, ocount, reads =>
      match st.buckets.get? pos with
      | none => .crashed
      | some b =>
          let attempt := if b.numRecords < EH_BLOCK_FACTOR then bucketInsert b r else none
          match attempt with
          | some (b2, w) => .placed (ehSetBucket st pos b2) reads w
          | none =>
              if b.next = -1 then .ended pos ocount reads
              else ehChainGo st r fuel b.next.toNat (ocount + 1) (reads + 1)

/-- Method append_new_bucket: pop the free list or extend the file;
returns the new position with its read and write counts. -/
def ehAppendBucket (st : EHState) (ld : Nat) : Except String (EHState × Nat × Nat × Nat) :=
  if st.firstFree = -1 then
    let newPos := st.buckets.length
    Except.ok (ehSetBucket st newPos (ehFreshBucket ld), newPos, 0, 2)
  else
    match st.buckets.get? st.firstFree.toNat with
    | none => Except.error "free list read failed"
    | some fb =>
        let newPos := st.firstFree.toNat
        let st1 := { st with firstFree := fb.next }
        Except.ok (ehSetBucket st1 newPos (ehFreshBucket ld), newPos, 1, 3)

/-- Method add_overflow: link a new overflow bucket after the chain
tail. -/
def ehAddOverflow (st : EHState) (pos : Nat) (overflowPos : Nat) :
    Except String (EHState × Nat × Nat) :=
  match st.buckets.get? pos with
  | none => Except.error "bucket read failed"
  | some b => Except.ok (ehSetBucket st pos { b with next := (overflowPos : Int) }, 1, 1)

/-- Collect every record of a chain starting from an already-read head
bucket (method get_all_records_from_bucket), counting the hop reads. -/
def ehCollectChain (st : EHState) : Nat → EBucket → Option (List IdxRec × Nat)
  | 0, _ => none
  | fuel + 1, b =>
      if b.next = -1 then some (b.records, 0)
      else
        match st.buckets.get? b.next.toNat with
        | none => none
        | some nb => (ehCollectChain st fuel nb).map (fun x => (b.records ++ x.1, x.2 + 1))

/-- Free every bucket of an overflow chain through free_bucket, threading
the free-list head; each step is one header read and two writes. -/
def ehFreeChain : Nat → EHState → Int → Nat → Nat → Option (EHState × Nat × Nat)
  | 0, _, _, _, _ => none
  | fuel + 1, st, pos, rds, wts =>
      if pos = -1 then some (st, rds, wts)
      else
        match st.buckets.get? pos.toNat with
        | none => none
        | some b =>
            let st1 := ehSetBucket st pos.toNat
              { localDepth := 0, numSlots := 0, numRecords := 0
                next := st.firstFree, data := b.data }
            let st2 := { st1 with firstFree := pos }
            ehFreeChain fuel st2 b.next (rds + 1) (wts + 2)

/-- Method update_directory_pointers: entries of the split bucket whose
index has the new depth bit set move to the new bucket.  The source
tracks no counter here. -/
def ehUpdateDirPointers (st : EHState) (oldPos newPos : Nat) (newLd : Nat) : EHState :=
  { st with
      directory := (List.range st.directory.length).map (fun i =>
        let cur := st.directory.getD i 0
        if cur == oldPos && (i >>> (newLd - 1)) % 2 = 1 then newPos else cur) }

/-- Append a record to its group, keeping first-seen group order as the
Python dict does. -/
def groupInsert (gs : List (Nat × List IdxRec)) (pos : Nat) (r : IdxRec) :
    List (Nat × List IdxRec) :=
  match gs with
  | [] => [(pos, [r])]
  | (p, rs) :: rest =>
      if p = pos then (p, rs ++ [r]) :: rest else (p, rs) :: groupInsert rest pos r

/-- Group the redistributed records by their rehashed directory target,
one tracked directory read per record. -/
def ehBuildGroupsGo (hashFn : List Byte → Nat) (st : EHState) :
    List IdxRec → List (Nat × List IdxRec) → Nat → Option (List (Nat × List IdxRec) × Nat)
  | [], gs, rds => some (gs, rds)
  | r :: rest, gs, rds =>
      let dirIndex := hashFn (ehNormalize r.value) % 2 ^ st.globalDepth
      match st.directory.get? dirIndex with
      | none => none
      | some pos => ehBuildGroupsGo hashFn st rest (groupInsert gs pos r) (rds + 1)

/-- The in-memory view of a bucket object during redistribution. -/
structure MemBucket where
  ld : Nat
  recs : List IdxRec
  numRecords : Nat
  next : Int
  deriving DecidableEq, Repr

/-- Bucket.write_bucket: num_slots becomes the record count and the body
is the records followed by tombstones. -/
def ehWriteBucketObj (st : EHState) (pos : Nat) (mb : MemBucket) : EHState :=
  ehSetBucket st pos
    { localDepth := mb.ld
      numSlots := mb.recs.length
      numRecords := mb.numRecords
      next := mb.next
      data := (mb.recs.map some) ++ List.replicate (EH_BLOCK_FACTOR - mb.recs.length) none }

/-- The inner redistribution loop of method split_bucket over one group:
duplicates are skipped, records go into the current bucket while it has
room, a single overflow bucket is attached when the group overflows, and
a record meeting a full bucket that already has an overflow pointer is
silently dropped. -/
def ehPlaceGroupRecords :
    List IdxRec → EHState → Nat → MemBucket → Nat → Nat →
    Except String (EHState × Nat × MemBucket × Nat × Nat)
  | [], st, pos, mb, rds, wts => Except.ok (st, pos, mb, rds, wts)
  | r :: rest, st, pos, mb, rds, wts =>
      if mb.recs.any (fun e =>
          ehNormalize e.value == ehNormalize r.value && e.pk == r.pk) then
        ehPlaceGroupRecords rest st pos mb rds wts
      else if mb.recs.length < EH_BLOCK_FACTOR then
        ehPlaceGroupRecords rest st pos
          { mb with recs := mb.recs ++ [r], numRecords := mb.numRecords + 1 } rds wts
      else if mb.next = -1 then
        match ehAppendBucket st mb.ld with
        | Except.error e => Except.error e
        | Except.ok (st1, overflowPos, r2, w2) =>
            let mb2 := { mb with next := (overflowPos : Int) }
            let st2 := ehWriteBucketObj st1 pos mb2
            match st2.buckets.get? overflowPos with
            | none => Except.error "overflow bucket read failed"
            | some ob =>
                let mbOb : MemBucket := ⟨ob.localDepth, ob.records, ob.numRecords, ob.next⟩
                let mbOb2 :=
                  if mbOb.recs.length < EH_BLOCK_FACTOR then
                    { mbOb with recs := mbOb.recs ++ [r], numRecords := mbOb.numRecords + 1 }
                  else mbOb
                ehPlaceGroupRecords rest st2 overflowPos mbOb2 (rds + r2 + 1) (wts + w2 + 1)
      else
        ehPlaceGroupRecords rest st pos mb rds wts

/-- The group loop of method split_bucket: read each target bucket, place
the records of its group, write the final bucket object back. -/
def ehPlaceGroups :
    List (Nat × List IdxRec) → EHState → Nat → Nat → Except String (EHState × Nat × Nat)
  | [], st, rds, wts => Except.ok (st, rds, wts)
  | (pos, rs) :: rest, st, rds, wts =>
      match st.buckets.get? pos with
      | none => Except.error "bucket read failed"
      | some b =>
          match ehPlaceGroupRecords rs st pos ⟨b.localDepth, b.records, b.numRecords, b.next⟩ 0 0 with
          | Except.error e => Except.error e
          | Except.ok (st1, pos2, mb2, r2, w2) =>
              ehPlaceGroups rest (ehWriteBucketObj st1 pos2 mb2) (rds + 1 + r2) (wts + w2 + 1)

/-- Method split_bucket: double the directory when the bucket is at the
global depth, collect and free the overflow chain, reset the head bucket
one level deeper, allocate the sibling bucket, repoint the directory and
redistribute every record (including the new one) by rehashing. -/
def ehSplitBucket (hashFn : List Byte → Nat) (st : EHState) (headPos : Nat)
    (head : EBucket) (newRec : IdxRec) : Except String (EHState × Nat × Nat) :=
  let dbl := head.localDepth = st.globalDepth
  let st0 :=
    if dbl then
      { st with directory := st.directory ++ st.directory, globalDepth := st.globalDepth + 1 }
    else st
  let c0 : Nat := if dbl then 1 else 0
  match ehCollectChain st0 (st0.buckets.length + 1) head with
  | none => Except.error "chain collect failed"
  | some (chainRecs, r1) =>
      let allRecs := chainRecs ++ [newRec]
      match ehFreeChain (st0.buckets.length + 1) st0 head.next 0 0 with
      | none => Except.error "free chain failed"
      | some (st1, r2, w2) =>
          let newLd := head.localDepth + 1
          let st2 := ehSetBucket st1 headPos (ehFreshBucket newLd)
          match ehAppendBucket st2 newLd with
          | Except.error e => Except.error e
          | Except.ok (st3, newPos, r4, w4) =>
              let st4 := ehUpdateDirPointers st3 headPos newPos newLd
              match ehBuildGroupsGo hashFn st4 allRecs [] 0 with
              | none => Except.error "directory read failed"
              | some (groups, r5) =>
                  match ehPlaceGroups groups st4 0 0 with
                  | Except.error e => Except.error e
                  | Except.ok (st5, r6, w6) =>
                      Except.ok (st5, c0 + r1 + r2 + r4 + r5 + r6,
                        c0 + w2 + 2 + w4 + w6)

/-- Method insert_index_record: directory lookup, chain walk, then split,
overflow append, or directory double plus split. -/
def ehInsertIndexRecord (hashFn : List Byte → Nat) (st : EHState) (origVal : PyVal)
    (r : IdxRec) : Except String (EHState × Nat × Nat) :=
  let dirIndex := hashFn (ehNormalize origVal) % 2 ^ st.globalDepth
  match st.directory.get? dirIndex with
  | none => Except.error "directory read failed"
  | some headPos =>
      match st.buckets.get? headPos with
      | none => Except.error "bucket read failed"
      | some head =>
          match ehChainGo st r (st.buckets.length + 1) headPos 0 0 with
          | .crashed => Except.error "chain walk failed"
          | .placed st2 reads writes => Except.ok (st2, 2 + reads, writes)
          | .ended tailPos ocount reads =>
              if head.localDepth < st.globalDepth then
                match ehSplitBucket hashFn st headPos head r with
                | Except.error e => Except.error e
                | Except.ok (st2, r2, w2) => Except.ok (st2, 2 + reads + r2, w2)
              else if ocount < EH_MAX_OVERFLOW then
                match ehAppendBucket st head.localDepth with
                | Except.error e => Except.error e
                | Except.ok (st1, overflowPos, rA, wA) =>
                    match ehAddOverflow st1 tailPos overflowPos with
                    | Except.error e => Except.error e
                    | Except.ok (st2, rB, wB) =>
                        match st2.buckets.get? overflowPos with
                        | none => Except.error "overflow bucket read failed"
                        | some ob =>
                            match bucketInsert ob r with
                            | some (ob2, wC) =>
                                Except.ok (ehSetBucket st2 overflowPos ob2,
                                  2 + reads + rA + rB + 1, wA + wB + wC)
                            | none =>
                                Except.ok (st2, 2 + reads + rA + rB + 1, wA + wB)
              else
                let st0 :=
                  { st with
                      directory := st.directory ++ st.directory
                      globalDepth := st.globalDepth + 1 }
                match ehSplitBucket hashFn st0 headPos head r with
                | Except.error e => Except.error e
                | Except.ok (st2, r2, w2) => Except.ok (st2, 2 + reads + 1 + r2, 1 + w2)

/-- The counters and flag of the OperationResult of a hash insert. -/
structure EHResult where
  success : Bool
  reads : Nat
  writes : Nat
  deriving DecidableEq, Repr

/-- ExtendibleHashing.insert: a None index value succeeds immediately
with no file access; a str value is first encoded and truncated to the
field size; the call always reports success. -/
def ehInsert (cfg : EHConfig) (hashFn : List Byte → Nat) (st : EHState) (r : IdxRec) :
    Except String (EHResult × EHState) :=
  match r.value with
  | .vnone => Except.ok ({ success := true, reads := 0, writes := 0 }, st)
  | v =>
      let r2 : IdxRec :=
        match v with
        | .vstr s => { r with value := .vbytes (s.take cfg.valueSize) }
        | _ => r
      match ehInsertIndexRecord hashFn st v r2 with
      | Except.error e => Except.error e
      | Except.ok (st2, rds, wts) =>
          Except.ok ({ success := true, reads := rds, writes := wts }, st2)

/-- Multiset of stored (normalised value, primary key) pairs over every
bucket of the file, the enumeration of the secondary index. -/
def ehAllPairs (st : EHState) : List (List Byte × Int) :=
  (st.buckets.flatMap EBucket.records).map (fun e => (ehNormalize e.value, e.pk))

/-! Coordinator (database_manager.py), modelled for a table with a
Sequential File primary index and a single extendible-hash secondary
index, the configuration on which the agreement claim is settled.  Cost
aggregation into the operation breakdown is not modelled; the data flow
that maintains the indexes is. -/

/-- Table configuration held by the coordinator for such a table. -/
structure CoordConfig where
  sf : SFConfig
  hashField : String
  hashCfg : EHConfig
  deriving Repr

/-- The pair of index states owned by the coordinator. -/
structure CoordState where
  prim : SeqState
  hash : EHState
  deriving DecidableEq, Repr

/-- DatabaseManager.insert: primary insert first (a raised duplicate
ValueError propagates, the sequential primary reports data True on every
non-raising insert), then an IndexRecord built from the record field and
integer primary key goes to the secondary index. -/
def dmInsert (cc : CoordConfig) (hashFn : List Byte → Nat) (cs : CoordState)
    (r : RecordVals) : Except String (Bool × CoordState) :=
  match seqInsert cc.sf cs.prim r with
  | Except.error e => Except.error e
  | Except.ok (_, prim2) =>
      match getFieldVal cc.sf.schema r cc.hashField,
            getFieldVal cc.sf.schema r cc.sf.keyField with
      | some v, some (.vint pk) =>
          match ehInsert cc.hashCfg hashFn cs.hash { value := v, pk := pk } with
          | Except.error e => Except.error e
          | Except.ok (_, hash2) => Except.ok (true, { prim := prim2, hash := hash2 })
      | _, _ => Except.error "field lookup failed"

/-- Multiset of (secondary field value, primary key) pairs over
primary.scan_all, the left side of the agreement invariant. -/
def dmPrimaryPairs (cc : CoordConfig) (cs : CoordState) : List (Option PyVal × Option PyVal) :=
  (seqScanAll cc.sf cs.prim).map (fun r =>
    (getFieldVal cc.sf.schema r cc.hashField, getFieldVal cc.sf.schema r cc.sf.keyField))

/-! Concrete instances the claims are evaluated on. -/

/-- Schema of the counterexample table for the agreement claim: integer
key, six-byte CHAR city indexed by hash, and the sequential active
flag. -/
def c1schema : List FieldSpec :=
  [⟨"id", .INT, 4⟩, ⟨"city", .CHAR, 6⟩, ⟨"active", .BOOL, 1⟩]

/-- Coordinator configuration of the agreement counterexample. -/
def c1cfg : CoordConfig :=
  { sf := { schema := c1schema, keyField := "id" }
    hashField := "city"
    hashCfg := { valueSize := 6 } }

/-- Freshly created table: empty sequential files with the default k of
ten, hash files as initialised. -/
def c1state0 : CoordState :=
  { prim := { main := [], aux := [], k := 10, deletedCount := 0, totalRecords := 0 }
    hash := ehInitialState }

/-- The inserted record: id 1 with a None city value. -/
def c1rec : RecordVals := [.vint 1, .vnone, .vbool false]

/-- The coordinator state after that insert: the primary holds the
packed record (city packed as the str form None padded with spaces), the
hash files untouched. -/
def c1state1 : CoordState :=
  { prim :=
      { main := []
        aux := [[1, 0, 0, 0, 78, 111, 110, 101, 32, 32, 1]]
        k := 10
        deletedCount := 0
        totalRecords := 1 }
    hash := ehInitialState }

/-- Schema of the single-field CHAR table of the round-trip
counterexample. -/
def c9schema : List FieldSpec := [⟨"name", .CHAR, 4⟩]

/-- A record whose CHAR field holds the str value ab. -/
def c9rec : RecordVals := [.vstr [97, 98]]

/-- Witness schema of the amended round-trip claim: one field of every
kind. -/
def c9wSchema : List FieldSpec :=
  [⟨"id", .INT, 4⟩, ⟨"score", .FLOAT, 4⟩, ⟨"tag", .CHAR, 3⟩, ⟨"ok", .BOOL, 1⟩,
   ⟨"vec", .ARRAY, 2⟩]

/-- Witness record in canonical shape. -/
def c9wRec : RecordVals :=
  [.vint (-5), .vfloat 1078530011, .vbytes [97, 98, 99], .vbool true,
   .varr [0, 3212836864]]

/-- Schema of the small sequential table of the aux-overflow scenario. -/
def c8schema : List FieldSpec := [⟨"id", .INT, 4⟩, ⟨"active", .BOOL, 1⟩]

/-- Its configuration. -/
def c8cfg : SFConfig := { schema := c8schema, keyField := "id" }

/-- Empty sequential index with k three. -/
def c8state0 : SeqState :=
  { main := [], aux := [], k := 3, deletedCount := 0, totalRecords := 0 }

/-- Build the scenario record for one id. -/
def c8rec (i : Int) : RecordVals := [.vint i, .vbool false]

/-- Run the four scenario inserts of keys 5, 2, 4 and 1 in order. -/
def c8run : Except String (Bool × SeqState) := do
  let s1 ← seqInsert c8cfg c8state0 (c8rec 5)
  let s2 ← seqInsert c8cfg s1.2 (c8rec 2)
  let s3 ← seqInsert c8cfg s2.2 (c8rec 4)
  seqInsert c8cfg s3.2 (c8rec 1)

/-- Keys of the main file of a sequential state, in file order. -/
def seqMainKeys (cfg : SFConfig) (st : SeqState) : List (Option PyVal) :=
  st.main.map (fun bs => getFieldVal cfg.schema (recordUnpack cfg.schema bs) cfg.keyField)

/-- The state the four scenario inserts are expected to reach: the four
records sorted in main.dat, an empty aux.dat and k recomputed to two. -/
def c8final : SeqState :=
  { main := [[1, 0, 0, 0, 1], [2, 0, 0, 0, 1], [4, 0, 0, 0, 1], [5, 0, 0, 0, 1]]
    aux := []
    k := 2
    deletedCount := 0
    totalRecords := 4 }

/-- One-field integer schema shared by the ISAM instances. -/
def intSchema : List FieldSpec := [⟨"id", .INT, 4⟩]

/-- ISAM configuration over that schema. -/
def isamCfg : IsamConfig := { schema := intSchema, keyField := "id" }

/-- An integer record of that schema. -/
def iRec (i : Int) : RecordVals := [.vint i]

/-- ISAM state holding only the key 1, at the stock factors. -/
def c2isamState : IsamState :=
  { pages := [⟨[iRec 1], -1⟩]
    leafPages := [⟨[⟨1, 0⟩], -1⟩]
    rootEntries := []
    freeList := []
    blockFactor := 30
    leafBlockFactor := 50
    rootBlockFactor := 50
    consolidationThreshold := 10 }

/-- Sequential state holding only the key 1 in aux.dat. -/
def c2seqState : SeqState :=
  { main := [], aux := [[1, 0, 0, 0, 1]], k := 10, deletedCount := 0, totalRecords := 1 }

/-- The three scenario inserts of keys 10, 20 and 30 into an empty
clustered tree of order 4 (records carry their key). -/
def c3run : Option (Bool × BPState Int) := do
  let s1 ← bplusInsert (singleLeafTree 4 ([] : List Int) []) 10 10
  let s2 ← bplusInsert s1.2 20 20
  bplusInsert s2.2 30 30

/-- ISAM state for the rebuild-predicate counterexample: one main page
whose overflow chain has five buckets, and an empty free list. -/
def c5state : IsamState :=
  { pages :=
      [⟨[iRec 1, iRec 2], 1⟩, ⟨[iRec 3], 2⟩, ⟨[iRec 4], 3⟩, ⟨[iRec 5], 4⟩,
       ⟨[iRec 6], 5⟩, ⟨[iRec 7], -1⟩]
    leafPages := [⟨[⟨1, 0⟩], -1⟩]
    rootEntries := []
    freeList := []
    blockFactor := 2
    leafBlockFactor := 1
    rootBlockFactor := 1
    consolidationThreshold := 0 }

/-- ISAM state for the overflow-strategy counterexample: block factor
one, a full main page with a full overflow chain already holding
MAX_OVERFLOW buckets (the bound the spec names for ISAM), and full leaf
and root indexes so that only strategy three is available. -/
def c6state : IsamState :=
  { pages := [⟨[iRec 10], 1⟩, ⟨[iRec 11], 2⟩, ⟨[iRec 12], -1⟩]
    leafPages := [⟨[⟨10, 0⟩], -1⟩]
    rootEntries := [⟨10, 0⟩]
    freeList := []
    blockFactor := 1
    leafBlockFactor := 1
    rootBlockFactor := 1
    consolidationThreshold := 0 }

/-- Recogniser of an overflow chain: the listed page numbers start at
the given page, each page exists and links to the next, and the last
page ends the chain. -/
def isamChainB (st : IsamState) : Int → List Int → Bool
  | _, [] => false
  | start, [p] =>
      p == start && decide (0 ≤ p) &&
        (match st.pages.get? p.toNat with
         | some pg => pg.next == -1
         | none => false)
  | start, p :: q :: rest =>
      p == start && decide (0 ≤ p) &&
        (match st.pages.get? p.toNat with
         | some pg => pg.next == q
         | none => false) &&
        isamChainB st q (q :: rest)

/-- Every page of the chain is at capacity. -/
def isamChainFull (st : IsamState) (chain : List Int) : Bool :=
  chain.all (fun n =>
    match st.pages.get? n.toNat with
    | some pg => decide (st.blockFactor ≤ pg.records.length)
    | none => false)

/-- Chain of data page numbers from a start page, following next
pointers. -/
def isamChainFrom (st : IsamState) : Nat → Int → List Int
  | 0, _ => []
  | fuel + 1, cur =>
      if cur < 0 then []
      else
        match st.pages.get? cur.toNat with
        | none => []
        | some p => cur :: isamChainFrom st fuel p.next

/-- The exact stored pair of the hash duplicate-insert counterexample. -/
def c7pair : IdxRec := { value := .vbytes [97, 97], pk := 1 }

/-- Hash state after some splits: global depth three, the pair stored in
bucket 0 of local depth three (one directory entry), three more depth
three buckets and the odd-suffix bucket of depth one. -/
def c7state : EHState :=
  { globalDepth := 3
    firstFree := -1
    directory := [0, 1, 2, 1, 3, 1, 4, 1]
    buckets :=
      [{ localDepth := 3, numSlots := 1, numRecords := 1, next := -1
         data := some c7pair :: List.replicate 19 none },
       ehFreshBucket 1, ehFreshBucket 3, ehFreshBucket 3, ehFreshBucket 3] }

/-- Number of stored copies of an exact (value, primary key) pair across
every bucket of the file. -/
def ehCountPair (st : EHState) (r : IdxRec) : Nat :=
  (st.buckets.flatMap EBucket.records).countP (fun e => e == r)

/-- The hash state after inserting the already-present pair into the
counterexample state: the head bucket gained an overflow bucket at
position five holding a second copy of the pair. -/
def c7state2 : EHState :=
  { globalDepth := 3
    firstFree := -1
    directory := [0, 1, 2, 1, 3, 1, 4, 1]
    buckets :=
      [{ localDepth := 3, numSlots := 1, numRecords := 1, next := 5
         data := some c7pair :: List.replicate 19 none },
       ehFreshBucket 1, ehFreshBucket 3, ehFreshBucket 3, ehFreshBucket 3,
       { localDepth := 3, numSlots := 1, numRecords := 1, next := -1
         data := some c7pair :: List.replicate 19 none }] }

/-- The tree produced by the boundary split of the order claim: the two
halves of the filled root leaf under a fresh internal root carrying the
promoted key. -/
def c3SplitResult {ρ : Type} (order : Nat) (ks : List Int) (rs : List ρ)
    (key : Int) (r : ρ) (k0 : Int) : BPState ρ :=
  let keys2 := ks.insertIdx (bisectLeft ks key) key
  let recs2 := rs.insertIdx (bisectLeft ks key) r
  let mid := keys2.length / 2
  { nodes :=
      [none,
       some (.leaf 1 (keys2.take mid) (recs2.take mid) none (some 2) (some 3)),
       some (.leaf 2 (keys2.drop mid) (recs2.drop mid) (some 1) none (some 3)),
       some (.internal 3 [k0] [1, 2] none)]
    rootId := 3
    nextId := 4
    order := order }

/-- The tree of the order-4 scenario after the third insert: two leaves
under a fresh internal root carrying the promoted key 20. -/
def c3state : BPState Int :=
  { nodes :=
      [none,
       some (.leaf 1 [10] [10] none (some 2) (some 3)),
       some (.leaf 2 [20, 30] [20, 30] (some 1) none (some 3)),
       some (.internal 3 [20] [1, 2] none)]
    rootId := 3
    nextId := 4
    order := 4 }

/-! Helper lemmas about the record layer. -/

theorem log2Fuel_eq (fuel n : Nat) (h : n ≤ fuel) : log2Fuel fuel n = Nat.log2 n := by
  induction fuel generalizing n with
  | zero =>
      have hn : n = 0 := Nat.le_zero.mp h
      subst hn
      rw [Nat.log2]
      rfl
  | succ fuel ih =>
      simp only [log2Fuel]
      by_cases h2 : 2 ≤ n
      · rw [if_pos h2, ih (n / 2) (by omega)]
        conv_rhs => rw [Nat.log2]
        simp only [ge_iff_le]
        rw [if_pos h2]
      · rw [if_neg h2]
        conv_rhs => rw [Nat.log2]
        simp only [ge_iff_le]
        rw [if_neg h2]

theorem intLog2_eq_log2 (n : Nat) : intLog2 n = Nat.log2 n :=
  log2Fuel_eq n n (Nat.le_refl n)

theorem deLe4_le4 (n : Nat) : deLe4 (le4 n) = n % 4294967296 := by
  simp only [le4, deLe4]
  omega

theorem decodeInt32_packInt32 (i : Int)
    (h1 : -2147483648 ≤ i) (h2 : i < 2147483648) :
    packInt32 i = some (le4 ((i % 4294967296).toNat)) ∧
      decodeInt32 (le4 ((i % 4294967296).toNat)) = i := by
  constructor
  · simp [packInt32, h1, h2]
  · simp only [decodeInt32, deLe4_le4]
    split <;> omega

theorem deLe4Chunks_foldr (xs : List Nat) (h : ∀ x ∈ xs, x < 4294967296) :
    deLe4Chunks xs.length (xs.foldr (fun x acc => le4 x ++ acc) []) = xs := by
  induction xs with
  | nil => rfl
  | cons x xs ih =>
      have hx : x < 4294967296 := h x (by simp)
      have htail := ih (fun y hy => h y (by simp [hy]))
      have e1 : (le4 x ++ xs.foldr (fun y acc => le4 y ++ acc) []).take 4 = le4 x := by
        simp [le4]
      have e2 : (le4 x ++ xs.foldr (fun y acc => le4 y ++ acc) []).drop 4 =
          xs.foldr (fun y acc => le4 y ++ acc) [] := by
        simp [le4]
      simp only [List.length_cons, List.foldr_cons, deLe4Chunks, e1, e2, htail]
      rw [deLe4_le4, Nat.mod_eq_of_lt hx]

theorem foldr_le4_length (xs : List Nat) :
    (xs.foldr (fun x acc => le4 x ++ acc) []).length = 4 * xs.length := by
  induction xs with
  | nil => rfl
  | cons x xs ih =>
      simp only [List.foldr_cons, List.length_append, List.length_cons, ih]
      have h4 : (le4 x).length = 4 := by simp [le4]
      omega

theorem packField_canonical (f : FieldSpec) (v : PyVal)
    (h : canonicalVal f v = true) :
    ∃ bs, packField f v = some bs ∧ bs.length = fieldWidth f ∧
      unpackField f bs = v := by
  obtain ⟨name, ftype, size⟩ := f
  cases ftype <;> cases v <;> (try exact Bool.noConfusion h)
  case INT.vint i =>
    simp only [canonicalVal, decide_eq_true_eq] at h
    obtain ⟨hpack, hdec⟩ := decodeInt32_packInt32 i h.1 h.2
    exact ⟨le4 ((i % 4294967296).toNat), by simp [packField, pyIntOf, hpack],
      by simp [le4, fieldWidth], by simp [unpackField, hdec]⟩
  case FLOAT.vfloat bits =>
    simp only [canonicalVal, decide_eq_true_eq] at h
    exact ⟨le4 bits, by simp [packField, h], by simp [le4, fieldWidth],
      by simp [unpackField, deLe4_le4, Nat.mod_eq_of_lt h]⟩
  case CHAR.vbytes b =>
    simp only [canonicalVal, decide_eq_true_eq] at h
    refine ⟨packChar size (.vbytes b), rfl, ?_, ?_⟩
    · simp [packChar, fieldWidth, h, List.take_of_length_le (le_of_eq h)]
    · simp [packChar, unpackField, h, List.take_of_length_le (le_of_eq h)]
  case BOOL.vbool b =>
    cases b <;> exact ⟨_, rfl, rfl, rfl⟩
  case ARRAY.varr xs =>
    simp only [canonicalVal, Bool.and_eq_true, decide_eq_true_eq,
      List.all_eq_true] at h
    obtain ⟨hlen, hall⟩ := h
    have hall2 : ∀ x ∈ xs, x < 4294967296 := by
      intro x hx
      simpa using hall x hx
    refine ⟨xs.foldr (fun x acc => le4 x ++ acc) [], ?_, ?_, ?_⟩
    · have hc : (decide (xs.length = size) && xs.all fun x => decide (x < 4294967296)) = true := by
        rw [Bool.and_eq_true]
        refine ⟨by simp [hlen], ?_⟩
        rw [List.all_eq_true]
        intro x hx
        simpa using hall x hx
      simp only [packField, hc, if_true]
    · simp only [foldr_le4_length, fieldWidth, hlen]
    · simp only [unpackField]
      rw [← hlen]
      exact congrArg PyVal.varr (deLe4Chunks_foldr xs hall2)

theorem recordUnpack_recordPack (s : List FieldSpec) (vs : RecordVals)
    (h : canonicalRec s vs = true) :
    ∃ bs, recordPack s vs = some bs ∧ recordUnpack s bs = vs := by
  induction s generalizing vs with
  | nil =>
      cases vs with
      | nil => exact ⟨[], rfl, rfl⟩
      | cons v vs => simp [canonicalRec] at h
  | cons f fs ih =>
      cases vs with
      | nil => simp [canonicalRec] at h
      | cons v vs =>
          simp only [canonicalRec, Bool.and_eq_true] at h
          obtain ⟨b, hb, hblen, hbun⟩ := packField_canonical f v h.1
          obtain ⟨rest, hrest, hrestun⟩ := ih vs h.2
          refine ⟨b ++ rest, ?_, ?_⟩
          · simp [recordPack, hb, hrest]
          · simp only [recordUnpack, ← hblen]
            rw [List.take_left, List.drop_left, hbun, hrestun]

/-! Helper lemmas about bisect and the tree descent. -/

theorem bisectLeft_le_length (ks : List Int) (key : Int) :
    bisectLeft ks key ≤ ks.length := by
  induction ks with
  | nil => simp [bisectLeft]
  | cons x xs ih =>
      simp only [bisectLeft, List.length_cons]
      split <;> omega

theorem bisectLeft_get_of_mem {ks : List Int} {key : Int}
    (hs : ks.Sorted (· < ·)) (hm : key ∈ ks) :
    ks.get? (bisectLeft ks key) = some key := by
  induction ks with
  | nil => cases hm
  | cons x xs ih =>
      rw [List.sorted_cons] at hs
      by_cases hx : x < key
      · have hm2 : key ∈ xs := by
          cases hm with
          | head => exact absurd hx (lt_irrefl _)
          | tail _ h2 => exact h2
        simpa [bisectLeft, hx] using ih hs.2 hm2
      · have hkx : key = x := by
          cases hm with
          | head => rfl
          | tail _ h2 => exact absurd (hs.1 key h2) hx
        simp [bisectLeft, hx, hkx]

theorem getQ_bisect_ne_of_not_mem {ks : List Int} {key : Int}
    (h : key ∉ ks) (pos : Nat) :
    (ks.get? pos == some key) = false := by
  cases hk : ks.get? pos with
  | none => rfl
  | some x =>
      have hx : x ∈ ks := List.get?_mem hk
      have hne : ¬ x = key := fun he => h (he ▸ hx)
      simpa using hne

theorem insertIntoTree_error_of_findLeaf {ρ : Type} (r : ρ) :
    ∀ (fuel : Nat) (st : BPState ρ) (cur : Nat) (key : Int) (lid : Nat)
      (ks : List Int) (rs : List ρ) (pv nx pa : Option Nat),
      bplusFindLeaf fuel st cur key = some (.leaf lid ks rs pv nx pa) →
      ks.Sorted (· < ·) → key ∈ ks →
      insertIntoTree fuel st cur key r = .error .valErr := by
  intro fuel
  induction fuel with
  | zero =>
      intro st cur key lid ks rs pv nx pa hf
      simp [bplusFindLeaf] at hf
  | succ fuel ih =>
      intro st cur key lid ks rs pv nx pa hf hs hm
      rw [bplusFindLeaf] at hf
      rw [insertIntoTree]
      cases hread : readNode st cur with
      | none => rw [hread] at hf; exact absurd hf (by simp)
      | some node =>
          rw [hread] at hf
          cases node with
          | leaf lid2 ks2 rs2 pv2 nx2 pa2 =>
              simp only [Option.some.injEq, BNode.leaf.injEq] at hf
              obtain ⟨_, hks, _, _, _, _⟩ := hf
              subst hks
              have hget := bisectLeft_get_of_mem hs hm
              simp only [hread, insertIntoLeaf]
              rw [hget]
              simp
          | internal i2 ks2 cs2 pa2 =>
              simp only at hf
              simp only [hread]
              cases hc : cs2.get? (bisectRight ks2 key) with
              | none => rw [hc] at hf; exact absurd hf (by simp)
              | some c =>
                  rw [hc] at hf
                  simp only [hc]
                  exact ih st c key lid ks rs pv nx pa hf hs hm

theorem isamChainB_head (st : IsamState) :
    ∀ (start p : Int) (rest : List Int), isamChainB st start (p :: rest) = true →
      0 ≤ p ∧ p = start := by
  intro start p rest hc
  cases rest with
  | nil =>
      rw [isamChainB, Bool.and_eq_true, Bool.and_eq_true] at hc
      exact ⟨by simpa using hc.1.2, by simpa using hc.1.1⟩
  | cons q r2 =>
      rw [isamChainB, Bool.and_eq_true, Bool.and_eq_true, Bool.and_eq_true] at hc
      exact ⟨by simpa using hc.1.1.2, by simpa using hc.1.1.1⟩

theorem findAvail_of_full_chain (st : IsamState) :
    ∀ (chain : List Int) (start : Int) (fuel : Nat),
      isamChainB st start chain = true →
      isamChainFull st chain = true →
      chain.length ≤ fuel →
      ∃ (tail : Int) (pg : IsamPage),
        chain.getLast? = some tail ∧
        st.pages.get? tail.toNat = some pg ∧ pg.next = -1 ∧
        findAvailOrLastGo st.pages st.blockFactor fuel start = some (tail, pg, true) := by
  intro chain
  induction chain with
  | nil =>
      intro start fuel hc
      exact absurd hc (by simp [isamChainB])
  | cons p rest ih =>
      intro start fuel hc hfull hlen
      cases fuel with
      | zero => simp at hlen
      | succ fuel =>
          cases rest with
          | nil =>
              rw [isamChainB, Bool.and_eq_true, Bool.and_eq_true] at hc
              obtain ⟨⟨hps, hp0⟩, hm⟩ := hc
              cases hpg : st.pages.get? p.toNat with
              | none => rw [hpg] at hm; exact Bool.noConfusion hm
              | some pg =>
                  rw [hpg] at hm
                  have hnext : pg.next = -1 := by simpa using hm
                  have hfull2 : st.blockFactor ≤ pg.records.length := by
                    have h := (List.all_eq_true.mp hfull) p (by simp)
                    rw [hpg] at h
                    simpa using h
                  have hps2 : p = start := by simpa using hps
                  have hp02 : (0 : Int) ≤ p := by simpa using hp0
                  subst hps2
                  refine ⟨p, pg, by simp, hpg, hnext, ?_⟩
                  simp only [findAvailOrLastGo]
                  rw [if_neg (by omega)]
                  simp only [hpg]
                  rw [if_neg (by omega), if_pos hnext]
          | cons q rest2 =>
              rw [isamChainB, Bool.and_eq_true, Bool.and_eq_true, Bool.and_eq_true] at hc
              obtain ⟨⟨⟨hps, hp0⟩, hm⟩, hrec⟩ := hc
              cases hpg : st.pages.get? p.toNat with
              | none => rw [hpg] at hm; exact Bool.noConfusion hm
              | some pg =>
                  rw [hpg] at hm
                  have hnextq : pg.next = q := by simpa using hm
                  have hfull2 : st.blockFactor ≤ pg.records.length := by
                    have h := (List.all_eq_true.mp hfull) p (by simp)
                    rw [hpg] at h
                    simpa using h
                  have hfullrest : isamChainFull st (q :: rest2) = true := by
                    simp only [isamChainFull, List.all_eq_true] at hfull ⊢
                    intro x hx
                    exact hfull x (by simp [hx])
                  have hq0 : (0 : Int) ≤ q := (isamChainB_head st q q rest2 hrec).1
                  have hps2 : p = start := by simpa using hps
                  have hp02 : (0 : Int) ≤ p := by simpa using hp0
                  subst hps2
                  obtain ⟨tail, pg2, hlast, hget2, hnext2, hfind⟩ :=
                    ih q fuel hrec hfullrest (by simpa using hlen)
                  refine ⟨tail, pg2, ?_, hget2, hnext2, ?_⟩
                  · rw [List.getLast?_cons_cons]
                    exact hlast
                  · simp only [findAvailOrLastGo]
                    rw [if_neg (by omega)]
                    simp only [hpg]
                    rw [if_neg (by omega), if_neg (by omega), hnextq]
                    exact hfind

/-! Claim theorems. -/

/-- Claim C5, amended: should_rebuild returns true exactly when the free
list is nonempty, the file has pages, and either the free ratio exceeds
two fifths, or otherwise some main page carries an overflow chain and
the summed chain lengths exceed four times the number of chained pages
(the mean chain length exceeds four).  With an empty free list the
predicate is false regardless of the chains. -/
theorem c5_rebuild_predicate (st : IsamState) :
    isamShouldRebuild st = true ↔
      0 < st.freeList.length ∧ 0 < st.pages.length ∧
        (5 * st.freeList.length > 2 * st.pages.length ∨
          (¬ 5 * st.freeList.length > 2 * st.pages.length ∧
            0 < (chainStats st).1 ∧ (chainStats st).2 > 4 * (chainStats st).1)) := by
  simp only [isamShouldRebuild]
  split_ifs with h1 h2 h3 h4
  · constructor
    · intro h; exact h.elim
    · rintro ⟨hfree, -, -⟩; omega
  · constructor
    · intro h; exact h.elim
    · rintro ⟨-, hpages, -⟩; omega
  · constructor
    · intro _; exact ⟨by omega, by omega, Or.inl h3⟩
    · intro _; rfl
  · constructor
    · intro h
      have h5 : (chainStats st).2 > 4 * (chainStats st).1 := by simpa using h
      exact ⟨by omega, by omega, Or.inr ⟨h3, h4, h5⟩⟩
    · rintro ⟨-, -, h5 | ⟨-, -, h6⟩⟩
      · exact absurd h5 h3
      · simpa using h6
  · constructor
    · intro h; exact h.elim
    · rintro ⟨-, -, h5 | ⟨-, h6, -⟩⟩
      · exact absurd h5 h3
      · exact absurd h6 h4

/-- Claim C2, amended: on a duplicate primary key the clustered B+ tree
insert returns a failed result with data false and raises nothing, while
ISAMPrimaryIndex.insert and SequentialFile.insert raise ValueError
(modelled as an error) instead of returning a failed OperationResult. -/
theorem c2_duplicate_insert_behaviour :
    (∀ (cfg : IsamConfig) (st : IsamState) (r : RecordVals) (v : RecordVals),
        isamSearch cfg st (recKey cfg r) = some v →
        isamInsert cfg st r = Except.error "Primary key already exists") ∧
    (∀ (cfg : SFConfig) (st : SeqState) (r : RecordVals) (key : PyVal) (v : RecordVals),
        getFieldVal cfg.schema r cfg.keyField = some key →
        seqSearch cfg st key = some v →
        seqInsert cfg st r = Except.error "Record with this key already exists") ∧
    (∀ (st : BPState Int) (key : Int) (r : Int) (lid : Nat) (ks : List Int)
        (rs : List Int) (pv nx pa : Option Nat),
        bplusFindLeaf (st.nodes.length + 2) st st.rootId key =
          some (.leaf lid ks rs pv nx pa) →
        ks.Sorted (· < ·) → key ∈ ks →
        bplusInsert st key r = some (false, st)) := by
  refine ⟨?_, ?_, ?_⟩
  · intro cfg st r v h
    simp [isamInsert, isamInsertFuel, h]
  · intro cfg st r key v hk hs
    simp [seqInsert, hk, hs]
  · intro st key r lid ks rs pv nx pa hf hsort hm
    have := insertIntoTree_error_of_findLeaf r (st.nodes.length + 2) st st.rootId key
      lid ks rs pv nx pa hf hsort hm
    simp [bplusInsert, this]

/-- Claim C2 witness: the three duplicate behaviours evaluated on
one-record instances of each primary index. -/
theorem c2_duplicate_insert_witness :
    isamInsert isamCfg c2isamState (iRec 1) = Except.error "Primary key already exists" ∧
      seqInsert c8cfg c2seqState (c8rec 1) =
        Except.error "Record with this key already exists" ∧
      bplusInsert (singleLeafTree 4 [10] [10]) 10 (10 : Int) =
        some (false, singleLeafTree 4 [10] [10]) := by
  refine ⟨?_, ?_, ?_⟩
  · exact c2_duplicate_insert_behaviour.1 isamCfg c2isamState (iRec 1) (iRec 1) (by decide)
  · exact c2_duplicate_insert_behaviour.2.1 c8cfg c2seqState (c8rec 1) (.vint 1)
      [.vint 1, .vbool true] (by decide) (by decide)
  · exact c2_duplicate_insert_behaviour.2.2 (singleLeafTree 4 [10] [10]) 10 10 1 [10] [10]
      none none none (by decide) (by simp) (by decide)

/-- Claim C9, counterexample: the pack and unpack round trip does not
return the original record field by field.  A CHAR field given as the
str value ab in a width-4 field packs to the space-padded bytes and
unpacks to those bytes, which differ from the original str value. -/
theorem c9_roundtrip_counterexample :
    recordPack c9schema c9rec = some [97, 98, 32, 32] ∧
      recordUnpack c9schema [97, 98, 32, 32] = [.vbytes [97, 98, 32, 32]] ∧
      recordUnpack c9schema [97, 98, 32, 32] ≠ c9rec := by
  refine ⟨by decide, by decide, by decide⟩

/-- Claim C9, amended: the round trip Record.unpack after Record.pack
returns the record field by field for every schema whose values are in
canonical stored shape: INT values in signed 32-bit range, FLOAT values
given as 32-bit patterns, CHAR values as bytes of exactly the field
width, BOOL values as bools and ARRAY values as full-width lists.  A
CHAR value supplied as a str (or as shorter bytes) comes back as the
padded byte string instead. -/
theorem c9_roundtrip_canonical (s : List FieldSpec) (vs : RecordVals)
    (h : canonicalRec s vs = true) :
    ∃ bs, recordPack s vs = some bs ∧ recordUnpack s bs = vs :=
  recordUnpack_recordPack s vs h

/-- Claim C9 witness: the amended round trip evaluated on a record with
one field of every kind. -/
theorem c9_roundtrip_canonical_witness :
    canonicalRec c9wSchema c9wRec = true ∧
      ∃ bs, recordPack c9wSchema c9wRec = some bs ∧ recordUnpack c9wSchema bs = c9wRec :=
  ⟨by decide, c9_roundtrip_canonical c9wSchema c9wRec (by decide)⟩

/-- Claim C4, counterexample: for the default order 50 both constructors
set min_keys to 24, while the ceiling formula of the claim gives 25. -/
theorem c4_minkeys_counterexample :
    clusteredMinKeys 50 = 24 ∧ unclusteredMinKeys 50 = 24 ∧
      (50 + 2) / 2 - 1 = 25 ∧ clusteredMinKeys 50 ≠ (50 + 2) / 2 - 1 := by
  decide

/-- Claim C4, amended: both B+ tree constructors set max_keys to m minus
one and min_keys to floor of (m plus 1) over 2, minus one.  The floor
and ceiling forms agree exactly for odd m; for even m the constructors
set one less than the ceiling formula of the claim. -/
theorem c4_occupancy_bounds (m : Nat) (hm : 1 ≤ m) :
    clusteredMaxKeys m = m - 1 ∧
      unclusteredMaxKeys m = m - 1 ∧
      clusteredMinKeys m = (m + 1) / 2 - 1 ∧
      unclusteredMinKeys m = clusteredMinKeys m ∧
      (m % 2 = 1 → clusteredMinKeys m = (m + 2) / 2 - 1) ∧
      (m % 2 = 0 → 2 ≤ m → clusteredMinKeys m + 1 = (m + 2) / 2 - 1) := by
  unfold clusteredMaxKeys unclusteredMaxKeys clusteredMinKeys unclusteredMinKeys
  omega

/-- Claim C4 witness: the amended bounds evaluated at the default order
50 and at the odd order 51. -/
theorem c4_occupancy_bounds_witness :
    (1 ≤ 50 ∧ clusteredMinKeys 50 = (50 + 1) / 2 - 1) ∧
      (1 ≤ 51 ∧ clusteredMinKeys 51 = (51 + 2) / 2 - 1) :=
  ⟨⟨by decide, (c4_occupancy_bounds 50 (by decide)).2.2.1⟩,
   ⟨by decide, (c4_occupancy_bounds 51 (by decide)).2.2.2.2.1 (by decide)⟩⟩

/-- Claim C5, counterexample: a state whose single overflow chain has
mean length six (condition b of the claim holds) but whose free list is
empty is not rebuilt: should_rebuild returns false whenever the free
count is zero, so condition b alone never suffices. -/
theorem c5_rebuild_counterexample :
    isamShouldRebuild c5state = false ∧
      c5state.freeList.length = 0 ∧
      chainStats c5state = (1, 6) ∧
      (chainStats c5state).2 > 4 * (chainStats c5state).1 := by
  refine ⟨by decide, by decide, by decide, by decide⟩

/-- Claim C3, counterexample: in a clustered tree of order 4, inserting
the keys 10, 20 and 30 into the empty root leaf does not leave a single
leaf; the third insert already splits, leaving two leaves under a fresh
internal root carrying the promoted key 20. -/
theorem c3_split_counterexample :
    c3run = some (true, c3state) ∧ numLeaves c3state = 2 ∧ numLeaves c3state ≠ 1 := by
  refine ⟨by decide, by decide, by decide⟩

/-- Claim C2, counterexample: a duplicate-key insert raises ValueError
out of ISAMPrimaryIndex.insert and SequentialFile.insert (modelled as an
error result) instead of returning a failed OperationResult. -/
theorem c2_duplicate_counterexample :
    isamInsert isamCfg c2isamState (iRec 1) = Except.error "Primary key already exists" ∧
      seqInsert c8cfg c2seqState (c8rec 1) =
        Except.error "Record with this key already exists" := by
  refine ⟨rfl, rfl⟩

/-- Claim C10: inserting an IndexRecord whose index_value is None
returns success with zero disk reads and zero disk writes and leaves the
hash state untouched. -/
theorem c10_null_value_insert (cfg : EHConfig) (hashFn : List Byte → Nat)
    (st : EHState) (r : IdxRec) (h : r.value = .vnone) :
    ehInsert cfg hashFn st r =
      Except.ok ({ success := true, reads := 0, writes := 0 }, st) := by
  obtain ⟨v, pk⟩ := r
  cases h
  rfl

/-- Claim C10 witness: the None-value insert evaluated on the freshly
initialised hash files. -/
theorem c10_null_value_insert_witness :
    ehInsert ⟨2⟩ (fun _ => 0) ehInitialState ⟨.vnone, 7⟩ =
      Except.ok ({ success := true, reads := 0, writes := 0 }, ehInitialState) :=
  c10_null_value_insert ⟨2⟩ (fun _ => 0) ehInitialState ⟨.vnone, 7⟩ rfl

/-- Claim C1: the primary and secondary indexes disagree after a
successful coordinator insert of a record whose hash-indexed CHAR field
is None.  The primary stores the record (the field packs to the bytes of
the str form None), but the hash insert succeeds without storing
anything, so the multiset of (field, key) pairs over primary scan_all
has one element while the secondary enumerates none, for every digest
function. -/
theorem c1_agreement_violation (hashFn : List Byte → Nat) :
    dmInsert c1cfg hashFn c1state0 c1rec = Except.ok (true, c1state1) ∧
      dmPrimaryPairs c1cfg c1state1 =
        [(some (.vbytes [78, 111, 110, 101, 32, 32]), some (.vint 1))] ∧
      ehAllPairs c1state1.hash = [] ∧
      (dmPrimaryPairs c1cfg c1state1).length ≠ (ehAllPairs c1state1.hash).length := by
  refine ⟨rfl, by decide, by decide, by decide⟩

set_option maxHeartbeats 1600000 in
/-- Claim C3, amended: in the clustered tree a leaf splits as soon as it
reaches max_keys keys, which is order minus one, so the boundary sits
one key earlier than the claim states.  Starting from the single root
leaf holding the keys ks, inserting a fresh key leaves a single leaf
exactly when the leaf then has fewer than order minus one keys, and
splits exactly once (two leaves under a fresh one-key internal root)
when the leaf reaches order minus one keys; with order 4 the split
therefore happens at the third key, not the fourth. -/
theorem c3_split_boundary {ρ : Type} (order : Nat) (ks : List Int) (rs : List ρ)
    (key : Int) (r : ρ) (hm : key ∉ ks) :
    (ks.length + 1 < order - 1 →
      ∃ st2, bplusInsert (singleLeafTree order ks rs) key r = some (true, st2) ∧
        numLeaves st2 = 1 ∧ st2.rootId = 1) ∧
    (ks.length + 1 = order - 1 →
      ∃ st2, bplusInsert (singleLeafTree order ks rs) key r = some (true, st2) ∧
        numLeaves st2 = 2 ∧ st2.rootId = 3 ∧
        ∃ k0, readNode st2 3 = some (.internal 3 [k0] [1, 2] none)) := by
  have hb := getQ_bisect_ne_of_not_mem hm (bisectLeft ks key)
  have hposle : bisectLeft ks key ≤ ks.length := bisectLeft_le_length ks key
  have hlen : (ks.insertIdx (bisectLeft ks key) key).length = ks.length + 1 :=
    List.length_insertIdx (bisectLeft ks key) ks hposle
  have hdescend : insertIntoTree ((singleLeafTree order ks rs : BPState ρ).nodes.length + 2)
      (singleLeafTree order ks rs) (singleLeafTree order ks rs).rootId key r =
      insertIntoLeaf 3 (singleLeafTree order ks rs) (.leaf 1 ks rs none none none) key r := rfl
  constructor
  · intro hA
    refine ⟨writeNode (singleLeafTree order ks rs) 1
        (.leaf 1 (ks.insertIdx (bisectLeft ks key) key)
          (rs.insertIdx (bisectLeft ks key) r) none none none), ?_, ?_, rfl⟩
    · unfold bplusInsert
      rw [hdescend]
      simp only [insertIntoLeaf, hb, Bool.false_eq_true, if_false]
      rw [if_neg]
      rw [hlen]
      show ¬ clusteredMaxKeys order ≤ ks.length + 1
      unfold clusteredMaxKeys
      omega
    · simp [numLeaves, writeNode, storeSet, singleLeafTree]
  · intro hB
    have hmid : (ks.insertIdx (bisectLeft ks key) key).length / 2 <
        (ks.insertIdx (bisectLeft ks key) key).length := by
      rw [hlen]
      omega
    have hne : (ks.insertIdx (bisectLeft ks key) key).drop
        ((ks.insertIdx (bisectLeft ks key) key).length / 2) ≠ [] := by
      intro hnil
      have := List.drop_eq_nil_iff.mp hnil
      omega
    obtain ⟨k0, hk0⟩ : ∃ k0, ((ks.insertIdx (bisectLeft ks key) key).drop
        ((ks.insertIdx (bisectLeft ks key) key).length / 2)).head? = some k0 := by
      cases hk : ((ks.insertIdx (bisectLeft ks key) key).drop
          ((ks.insertIdx (bisectLeft ks key) key).length / 2)).head? with
      | none => exact absurd (List.head?_eq_none_iff.mp hk) hne
      | some x => exact ⟨x, rfl⟩
    refine ⟨c3SplitResult order ks rs key r k0, ?_,
      by simp [numLeaves, c3SplitResult], rfl, ⟨k0, rfl⟩⟩
    unfold bplusInsert
    rw [hdescend]
    simp only [insertIntoLeaf, hb, Bool.false_eq_true, if_false]
    rw [if_pos]
    · simp only [splitLeafNode]
      rw [hk0]
      rfl
    · rw [hlen]
      show clusteredMaxKeys order ≤ ks.length + 1
      unfold clusteredMaxKeys
      omega

/-- Claim C6, amended: when every page of the target chain is full, the
overflow fallback of ISAM appends a new bucket to the chain tail
unconditionally; the ISAM code has no MAX_OVERFLOW bound and never
forces a split by doubling the leaf index, so chains can grow past any
bound.  With an empty free list the new bucket goes to the file end and
the old tail is relinked to it, whatever the chain length. -/
theorem c6_overflow_chain_unbounded (cfg : IsamConfig) (st : IsamState) (start : Int)
    (chain : List Int) (r : RecordVals)
    (hc : isamChainB st start chain = true)
    (hfull : isamChainFull st chain = true)
    (hlen : chain.length ≤ st.pages.length + 1)
    (hfree : st.freeList = []) :
    ∃ (tail : Int) (pg : IsamPage),
      chain.getLast? = some tail ∧
      overflowPageStrategy cfg st start r =
        Except.ok (writePage (writePage st (st.pages.length : Int) ⟨[r], -1⟩)
          tail { pg with next := (st.pages.length : Int) }) ∧
      (writePage (writePage st (st.pages.length : Int) ⟨[r], -1⟩)
          tail { pg with next := (st.pages.length : Int) }).pages.length =
        st.pages.length + 1 ∧
      (writePage (writePage st (st.pages.length : Int) ⟨[r], -1⟩)
          tail { pg with next := (st.pages.length : Int) }).pages.get?
          st.pages.length = some ⟨[r], -1⟩ := by
  obtain ⟨tail, pg, hlast, hget, hnext, hfind⟩ :=
    findAvail_of_full_chain st chain start (st.pages.length + 1) hc hfull hlen
  obtain ⟨htl, -⟩ := List.get?_eq_some.mp hget
  have happ : writePage st (st.pages.length : Int) ⟨[r], -1⟩ =
      { st with pages := st.pages ++ [⟨[r], -1⟩] } := by
    simp [writePage]
  have hset : writePage { st with pages := st.pages ++ [⟨[r], -1⟩] } tail
      { pg with next := (st.pages.length : Int) } =
      { st with pages := ((st.pages ++ [IsamPage.mk [r] (-1)]).set tail.toNat
          ({ pg with next := (st.pages.length : Int) })) } := by
    simp only [writePage, List.length_append, List.length_singleton]
    rw [if_pos (by omega)]
  refine ⟨tail, pg, hlast, ?_, ?_, ?_⟩
  · simp only [overflowPageStrategy, hfind, hfree]
    rfl
  · rw [happ, hset]
    simp
  · rw [happ, hset]
    simp only
    rw [List.get?_set_ne _ _ (by omega)]
    exact List.get?_concat_length st.pages ⟨[r], -1⟩

/-- Claim C6 witness: on a full chain that already carries MAX_OVERFLOW
overflow buckets (two, the bound the spec transfers from the hash
index), the strategy still appends a third: the chain from page zero
becomes four pages long. -/
theorem c6_overflow_chain_witness :
    isamChainB c6state 0 [0, 1, 2] = true ∧
      ∃ (tail : Int) (pg : IsamPage),
        ([0, 1, 2] : List Int).getLast? = some tail ∧
        overflowPageStrategy isamCfg c6state 0 (iRec 13) =
          Except.ok (writePage (writePage c6state (c6state.pages.length : Int) ⟨[iRec 13], -1⟩)
            tail { pg with next := (c6state.pages.length : Int) }) := by
  refine ⟨by decide, ?_⟩
  obtain ⟨tail, pg, hlast, hstrat, -, -⟩ :=
    c6_overflow_chain_unbounded isamCfg c6state 0 [0, 1, 2] (iRec 13)
      (by decide) (by decide) (by decide) (by decide)
  exact ⟨tail, pg, hlast, hstrat⟩

/-- Claim C6, counterexample: with the leaf and root indexes full and a
chain already carrying two overflow buckets (the MAX_OVERFLOW bound of
the hashing module, the only one defined in the code base), the
overflow handler still extends the chain to three overflow buckets
(next pointers 0 to 1 to 2 to 3) and leaves the leaf index untouched
instead of forcing a split. -/
theorem c6_chain_bound_counterexample :
    (handlePageOverflow isamCfg c6state 0 ⟨[iRec 10], 1⟩ (iRec 13) 0).toOption.map
        (fun st2 => (st2.pages.map (fun p => p.next), st2.leafPages.length)) =
      some ([1, 2, 3, -1], 1) ∧ EH_MAX_OVERFLOW < 3 := by
  decide

/-- Claim C3 witness: the amended split boundary evaluated on a tree of
order four holding the keys ten and twenty: the third key thirty splits
the leaf. -/
theorem c3_split_boundary_witness :
    (30 : Int) ∉ ([10, 20] : List Int) ∧
      ∃ st2, bplusInsert (singleLeafTree 4 [10, 20] ([10, 20] : List Int)) 30 30 =
          some (true, st2) ∧
        numLeaves st2 = 2 ∧ st2.rootId = 3 ∧
        ∃ k0, readNode st2 3 = some (.internal 3 [k0] [1, 2] none) :=
  ⟨by decide, (c3_split_boundary 4 [10, 20] [10, 20] 30 30 (by decide)).2 (by decide)⟩

/-- Claim C7: inserting an exact (value, primary key) pair that is
already present in the target bucket chain is not a no-op.  On a state
whose target bucket sits at the global depth with room to spare, the
bucket-level duplicate check rejects the record, but the chain walk
treats the rejection like a full bucket: the call still reports success,
performs five writes, appends an overflow bucket and stores the pair a
second time.  The hypothesis pins the digest of the value to the bucket
holding the pair, as the stable md5 digest does for its own value. -/
theorem c7_duplicate_not_noop (hashFn : List Byte → Nat)
    (h : hashFn (ehNormalize (.vbytes [97, 97])) % 2 ^ 3 = 0) :
    ehInsert ⟨2⟩ hashFn c7state c7pair =
        Except.ok ({ success := true, reads := 4, writes := 5 }, c7state2) ∧
      ehCountPair c7state c7pair = 1 ∧
      ehCountPair c7state2 c7pair = 2 := by
  refine ⟨?_, by decide, by decide⟩
  have hz : hashFn (ehNormalize (PyVal.vbytes [97, 97])) % 2 ^ c7state.globalDepth = 0 := by
    simpa [c7state] using h
  have hinner : ehInsertIndexRecord hashFn c7state (PyVal.vbytes [97, 97])
      ⟨PyVal.vbytes [97, 97], 1⟩ = Except.ok (c7state2, 4, 5) := by
    simp only [ehInsertIndexRecord, hz]
    rfl
  simp only [ehInsert, c7pair]
  rw [hinner]

/-- Claim C7 witness: the duplicate insert evaluated with a concrete
digest function that sends the value to bucket zero. -/
theorem c7_duplicate_not_noop_witness :
    ehInsert ⟨2⟩ (fun _ => 0) c7state c7pair =
        Except.ok ({ success := true, reads := 4, writes := 5 }, c7state2) ∧
      ehCountPair c7state c7pair = 1 ∧
      ehCountPair c7state2 c7pair = 2 :=
  c7_duplicate_not_noop (fun _ => 0) (by decide)

/-- Claim C8: a sequential-file insert with a fresh key appends the
packed record to aux.dat and rebuilds exactly when the auxiliary count
then exceeds k; every successful rebuild writes the sorted active
records of both files to main.dat, truncates aux.dat and resets k to
max 1 (floor of log2 of the record count); in the scenario with k three
the inserts of keys 5, 2, 4, 1 end with main.dat holding 1, 2, 4, 5 in
order, aux.dat empty and k two. -/
theorem c8_insert_rebuild_behaviour (cfg : SFConfig) (st : SeqState) (r : RecordVals)
    (key : PyVal) (bs : List Byte)
    (hkey : getFieldVal cfg.schema r cfg.keyField = some key)
    (hdup : seqSearch cfg st key = none)
    (hpack : recordPack cfg.schema (setFieldVal cfg.schema r "active" (.vbool true)) = some bs) :
    (st.aux.length + 1 ≤ st.k →
      seqInsert cfg st r = Except.ok (false,
        { st with aux := st.aux ++ [bs], totalRecords := st.totalRecords + 1 })) ∧
    (st.k < st.aux.length + 1 →
      seqInsert cfg st r =
        (seqRebuild cfg
          { st with aux := st.aux ++ [bs], totalRecords := st.totalRecords + 1 }).map
          (fun st2 => (true, st2))) ∧
    (∀ st3 st2, seqRebuild cfg st3 = Except.ok st2 →
      st2.aux = [] ∧
      st2.totalRecords = (seqSortRecords cfg (seqScanAll cfg st3)).length ∧
      (seqSortRecords cfg (seqScanAll cfg st3)).mapM
          (fun q => match recordPack cfg.schema q with
            | some qb => Except.ok qb
            | none => (Except.error "pack failed" : Except String (List Byte))) =
        Except.ok st2.main ∧
      st2.k = if 0 < st2.totalRecords then max 1 (Nat.log2 st2.totalRecords) else st3.k) ∧
    (c8run = Except.ok (true, c8final) ∧
      seqMainKeys c8cfg c8final =
        [some (.vint 1), some (.vint 2), some (.vint 4), some (.vint 5)] ∧
      c8final.aux = [] ∧ c8final.k = 2) := by
  refine ⟨?_, ?_, ?_, by rfl, by decide, rfl, rfl⟩
  · intro hle
    simp only [seqInsert, hkey, hdup, hpack]
    rw [if_neg]
    simp only [List.length_append, List.length_singleton]
    omega
  · intro hgt
    simp only [seqInsert, hkey, hdup, hpack]
    rw [if_pos]
    · cases h : seqRebuild cfg
          { st with aux := st.aux ++ [bs], totalRecords := st.totalRecords + 1 } with
      | error e => rfl
      | ok st2 => rfl
    · simp only [List.length_append, List.length_singleton]
      omega
  · intro st3 st2 h
    simp only [seqRebuild] at h
    cases hm : (seqSortRecords cfg (seqScanAll cfg st3)).mapM
        (fun q => match recordPack cfg.schema q with
          | some qb => Except.ok qb
          | none => (Except.error "pack failed" : Except String (List Byte))) with
    | error e =>
        rw [hm] at h
        exact Except.noConfusion h
    | ok packed =>
        rw [hm] at h
        have h2 : Except.ok
            ({ main := packed
               aux := []
               k := if (seqSortRecords cfg (seqScanAll cfg st3)).length > 0 then
                   max 1 (intLog2 (seqSortRecords cfg (seqScanAll cfg st3)).length)
                 else st3.k
               deletedCount := 0
               totalRecords := (seqSortRecords cfg (seqScanAll cfg st3)).length } : SeqState) =
            Except.ok st2 := h
        injection h2 with h3
        subst h3
        refine ⟨rfl, rfl, rfl, ?_⟩
        simp only [intLog2_eq_log2]

/-- Claim C8 witness: the insert behaviour evaluated on an empty index
of k three receiving the key seven: no rebuild, the packed record lands
in aux.dat. -/
theorem c8_insert_rebuild_witness :
    getFieldVal c8cfg.schema (c8rec 7) c8cfg.keyField = some (.vint 7) ∧
      seqSearch c8cfg c8state0 (.vint 7) = none ∧
      recordPack c8cfg.schema (setFieldVal c8cfg.schema (c8rec 7) "active" (.vbool true)) =
        some [7, 0, 0, 0, 1] ∧
      seqInsert c8cfg c8state0 (c8rec 7) = Except.ok (false,
        { c8state0 with aux := c8state0.aux ++ [[7, 0, 0, 0, 1]],
                        totalRecords := c8state0.totalRecords + 1 }) := by
  refine ⟨by decide, by decide, by decide, ?_⟩
  exact (c8_insert_rebuild_behaviour c8cfg c8state0 (c8rec 7) (.vint 7) [7, 0, 0, 0, 1]
    (by decide) (by decide) (by decide)).1 (by decide)

end DBIndex
